import Mathlib

/-!
Verification of the proxmox-backup storage/upload core against its
natural-language specification.  The Rust sources under `src/` are shallowly
embedded: strings are `List Char`, machine integers are `Nat`/`Int` with
explicit `% 2^w` where wrap-around matters, fallible operations return
`Except`/`Option`, and the in-place mutation of the per-connection
`BackupEnvironment` is explicit state passing.

Parts of the repository that the build refers to but whose sources are not in
the tree (`api2/backup/environment.rs`, the datastore writer internals, the
`proxmox` helper crate and the `chrono` time library) are modelled from the
specification text; each such definition carries a doc comment starting with
`Modelled from the spec:`.
-/

namespace PBS

/-- Strings are modelled as lists of characters. -/
abbrev Str := List Char

/-- Chunk digests are 32-byte SHA-256 values; the model only needs a type
with decidable equality, so digests are represented abstractly as `Nat`.
Hex encoding/decoding on the wire (`hex_to_digest`) is elided: the API schema
(`CHUNK_DIGEST_SCHEMA`) guarantees the handler receives well-formed 64-char
hex digests, and `hex_to_digest` is injective on those. -/
abbrev Digest := Nat

/-! ## Backup session state (`BackupEnvironment`)

`src/api2/backup.rs` declares `mod environment` but `environment.rs` itself is
not in the tree; the state it manages is modelled from §3 of the spec
("Session (BackupEnvironment)" and "WriterState"). -/

/-- Modelled from the spec: the dynamic `WriterState` — "accumulating
`(end_offset, digest)` with a running index checksum and a running chunk
count"; entries are kept in append order. -/
structure DynamicWriterState where
  name : Str
  /-- `(end_offset, digest)` entries, in append order. -/
  index : List (Nat × Digest)
  /-- current last end offset (`end_offset[-1] = 0`). -/
  offset : Nat
  chunk_count : Nat
deriving Repr, DecidableEq

/-- Modelled from the spec: the fixed `WriterState` — "with declared size and
chunk size, a digest array indexed by position, a bitmap of filled slots";
the filled slots are kept as `(slot, digest)` pairs in append order. -/
structure FixedWriterState where
  name : Str
  size : Nat
  chunk_size : Nat
  /-- filled `(slot_index, digest)` pairs, in append order. -/
  slots : List (Nat × Digest)
  chunk_count : Nat
deriving Repr, DecidableEq

/-- A dynamic index file (`.didx`) of the previous snapshot: the list of
`(end_offset, digest)` entries (spec §3, "Dynamic index"). -/
structure DynamicIndexFile where
  entries : List (Nat × Digest)
deriving Repr, DecidableEq

/-- A fixed index file (`.fidx`) of the previous snapshot: declared image
size, chunk size and the digest-per-slot array (spec §3, "Fixed index"). -/
structure FixedIndexFile where
  size : Nat
  chunk_size : Nat
  digests : List Digest
deriving Repr, DecidableEq

/-- The previous snapshot's archives, by file name, split by index kind
(`open_dynamic_reader` fails on anything that is not a well-formed `.didx`,
`open_fixed_reader` on anything that is not a well-formed `.fidx`). -/
structure PrevSnapshot where
  didx : List (Str × DynamicIndexFile)
  fidx : List (Str × FixedIndexFile)
deriving Repr, DecidableEq

/-- Modelled from the spec: the session-local state of `BackupEnvironment`
that the handlers in `src/api2/backup.rs` read and mutate: the `known-chunks`
mapping `digest → size`, the `writer_id → WriterState` tables (ids `1..=256`,
monotonic per session), and the previous snapshot (if any). -/
structure BackupEnv where
  /-- `known-chunks`: association list `digest → size` (u32 size). -/
  known_chunks : List (Digest × Nat)
  dynamic_writers : List (Nat × DynamicWriterState)
  fixed_writers : List (Nat × FixedWriterState)
  next_writer_id : Nat
  last_backup : Option PrevSnapshot
deriving Repr, DecidableEq

/-- Decidable equality for `Except` results, so that concrete runs of the
model can be checked by `decide`. -/
instance {e a : Type} [DecidableEq e] [DecidableEq a] :
    DecidableEq (Except e a) := fun x y =>
  match x, y with
  | .error u, .error v =>
    if h : u = v then .isTrue (by rw [h])
    else .isFalse (by intro hc; injection hc; exact h (by assumption))
  | .ok u, .ok v =>
    if h : u = v then .isTrue (by rw [h])
    else .isFalse (by intro hc; injection hc; exact h (by assumption))
  | .error _, .ok _ => .isFalse (by intro hc; exact Except.noConfusion hc)
  | .ok _, .error _ => .isFalse (by intro hc; exact Except.noConfusion hc)

/-- Association-list lookup used for all the maps of the model. -/
def alookup {α : Type} [DecidableEq α] {β : Type} (k : α) :
    List (α × β) → Option β
  | [] => none
  | (k', v) :: rest => if k = k' then some v else alookup k rest

/-- Association-list insert-or-replace (HashMap insert). -/
def ainsert {α : Type} [DecidableEq α] {β : Type} (k : α) (v : β) :
    List (α × β) → List (α × β)
  | [] => [(k, v)]
  | (k', v') :: rest =>
    if k = k' then (k, v) :: rest else (k', v') :: ainsert k v rest

/-- Modelled from the spec: `BackupEnvironment::lookup_chunk` — look a digest
up in the session's known-chunks map, returning its recorded size. -/
def BackupEnv.lookup_chunk (env : BackupEnv) (digest : Digest) : Option Nat :=
  alookup digest env.known_chunks

/-- Modelled from the spec: `BackupEnvironment::register_chunk` — record
`digest → size` in known-chunks. -/
def BackupEnv.register_chunk (env : BackupEnv) (digest : Digest) (size : Nat) :
    BackupEnv :=
  { env with known_chunks := ainsert digest size env.known_chunks }

/-- Modelled from the spec: `BackupEnvironment::dynamic_writer_append_chunk` —
§4.4: "Append: validate that the new `end_offset > last_end_offset`, write
the 40-byte entry, … and a running count". Fails when the writer id is
unknown. -/
def BackupEnv.dynamic_writer_append_chunk (env : BackupEnv) (wid : Nat)
    (offset : Nat) (_size : Nat) (digest : Digest) :
    Except Str BackupEnv :=
  match alookup wid env.dynamic_writers with
  | none => .error "dynamic writer not registered".data
  | some w =>
    if offset ≤ w.offset then
      .error "offset went backward".data
    else
      let w' : DynamicWriterState :=
        { w with index := w.index ++ [(offset, digest)],
                 offset := offset,
                 chunk_count := w.chunk_count + 1 }
      .ok { env with dynamic_writers := ainsert wid w' env.dynamic_writers }

/-- Modelled from the spec: `BackupEnvironment::fixed_writer_append_chunk` —
§4.4: "Append: validate that `offset` is a multiple of `chunk_size`, compute
slot index, reject if slot already filled (`DuplicateSlot`), write digest
into slot". Fails when the writer id is unknown. -/
def BackupEnv.fixed_writer_append_chunk (env : BackupEnv) (wid : Nat)
    (offset : Nat) (_size : Nat) (digest : Digest) :
    Except Str BackupEnv :=
  match alookup wid env.fixed_writers with
  | none => .error "fixed writer not registered".data
  | some w =>
    if offset % w.chunk_size ≠ 0 then
      .error "offset is not a multiple of chunk size".data
    else
      let slot := offset / w.chunk_size
      if (alookup slot w.slots).isSome then
        .error "duplicate slot".data
      else
        let w' : FixedWriterState :=
          { w with slots := w.slots ++ [(slot, digest)],
                   chunk_count := w.chunk_count + 1 }
        .ok { env with fixed_writers := ainsert wid w' env.fixed_writers }

/-! ## `dynamic_append` / `fixed_append` (`src/api2/backup.rs:333-428`)

The handlers receive JSON parameters; the API schema layer has already
checked that `digest-list` is an array of digest strings and `offset-list`
an array of integers, so the model takes the decoded lists directly.  The
Rust loop mutates the shared environment in place and returns `Err` as soon
as one item fails, leaving earlier mutations in place; the model therefore
returns the final environment together with an optional error. -/

/-- One iteration step list for `dynamic_append`: process `(digest, offset)`
pairs in list order, stopping at the first failure (`src/api2/backup.rs:351-360`). -/
def dynamicAppendLoop (env : BackupEnv) (wid : Nat) :
    List (Digest × Nat) → Option Str × BackupEnv
  | [] => (none, env)
  | (digest, offset) :: rest =>
    match env.lookup_chunk digest with
    | none => (some "no such chunk".data, env)
    | some size =>
      match env.dynamic_writer_append_chunk wid offset size digest with
      | .error e => (some e, env)
      | .ok env' => dynamicAppendLoop env' wid rest

/-- `dynamic_append` (`src/api2/backup.rs:333-363`): reject length-mismatched
lists, then append each digest at its offset in list order. -/
def dynamic_append (env : BackupEnv) (wid : Nat)
    (digest_list : List Digest) (offset_list : List Nat) :
    Option Str × BackupEnv :=
  if offset_list.length ≠ digest_list.length then
    (some "offset list has wrong length".data, env)
  else
    dynamicAppendLoop env wid (digest_list.zip offset_list)

/-- One iteration step list for `fixed_append` (`src/api2/backup.rs:416-425`). -/
def fixedAppendLoop (env : BackupEnv) (wid : Nat) :
    List (Digest × Nat) → Option Str × BackupEnv
  | [] => (none, env)
  | (digest, offset) :: rest =>
    match env.lookup_chunk digest with
    | none => (some "no such chunk".data, env)
    | some size =>
      match env.fixed_writer_append_chunk wid offset size digest with
      | .error e => (some e, env)
      | .ok env' => fixedAppendLoop env' wid rest

/-- `fixed_append` (`src/api2/backup.rs:398-428`). -/
def fixed_append (env : BackupEnv) (wid : Nat)
    (digest_list : List Digest) (offset_list : List Nat) :
    Option Str × BackupEnv :=
  if offset_list.length ≠ digest_list.length then
    (some "offset list has wrong length".data, env)
  else
    fixedAppendLoop env wid (digest_list.zip offset_list)

/-! ## Opening a backup session (`upgrade_to_backup_protocol`,
`src/api2/backup.rs:44-163`)

Only the group/time/directory logic of lines 80-93 is modelled; the HTTP
upgrade-header and protocol-version checks before it and the worker-task
plumbing after it are connection mechanics outside every claim.  A snapshot
directory is identified by `(backup_type, backup_id, backup_time)`. -/

/-- A snapshot directory `<type>/<id>/<time>` of the datastore. -/
abbrev SnapshotPath := Str × Str × Int

/-- Modelled from the spec: `DataStore::create_backup_dir` — create the
snapshot directory, returning the new filesystem state and `is_new`
(`false` when the directory already existed, in which case nothing is
created). -/
def create_backup_dir (fs : List SnapshotPath) (dir : SnapshotPath) :
    List SnapshotPath × Bool :=
  if dir ∈ fs then (fs, false) else (dir :: fs, true)

/-- The monotonic-timestamp check of `src/api2/backup.rs:84-88`: with a last
backup at `t1`, the new `backup_time ≤ t1` fails. -/
def timeCheckFails (scan : Option Int) (backup_time : Int) : Bool :=
  match scan with
  | some t1 => decide (backup_time ≤ t1)
  | none => false

/-- `upgrade_to_backup_protocol`, group/time/directory logic
(`src/api2/backup.rs:80-93`).  `scan` is the result of
`BackupInfo::last_backup(..).unwrap_or(None)`: the newest timestamp the
group scan reported, or `None` when there was no previous backup or the scan
failed (the `unwrap_or`).  Returns the session outcome (a fresh
`BackupEnv` on success) together with the filesystem after the call. -/
def upgrade_to_backup_protocol (fs : List SnapshotPath) (scan : Option Int)
    (backup_type backup_id : Str) (backup_time : Int)
    (last_snapshot : Option PrevSnapshot) :
    Except Str BackupEnv × List SnapshotPath :=
  if timeCheckFails scan backup_time then
    (.error "backup timestamp is older than last backup.".data, fs)
  else
    let (fs', is_new) := create_backup_dir fs (backup_type, backup_id, backup_time)
    if ¬ is_new then
      (.error "backup directorty already exists.".data, fs')
    else
      (.ok { known_chunks := [], dynamic_writers := [], fixed_writers := [],
             next_writer_id := 1, last_backup := last_snapshot }, fs')

/-! ## Creating index writers (`create_dynamic_index`, `create_fixed_index`,
`src/api2/backup.rs:228-298`) -/

/-- Modelled from the spec: `BackupEnvironment::register_fixed_writer` —
"Allocate the next writer id (1..=256, monotonic; exhaustion is fatal)". -/
def BackupEnv.register_fixed_writer (env : BackupEnv) (name : Str)
    (size : Nat) (chunk_size : Nat) : Except Str (Nat × BackupEnv) :=
  if env.next_writer_id > 256 then
    .error "no more writers available".data
  else
    let wid := env.next_writer_id
    let w : FixedWriterState :=
      { name := name, size := size, chunk_size := chunk_size,
        slots := [], chunk_count := 0 }
    .ok (wid, { env with fixed_writers := ainsert wid w env.fixed_writers,
                         next_writer_id := wid + 1 })

/-- `create_fixed_index` (`src/api2/backup.rs:269-298`): reject names that do
not end in `.fidx`, then create the writer with the hard-coded
`chunk_size = 4096*1024` (the `// todo: ??` constant at line 290) and
register it. -/
def create_fixed_index (env : BackupEnv) (name : Str) (size : Nat) :
    Except Str (Nat × BackupEnv) :=
  if ¬ ".fidx".data.isSuffixOf name then
    .error "wrong archive extension".data
  else
    let chunk_size := 4096 * 1024
    env.register_fixed_writer name size chunk_size

/-! ## Previous-index download (`dynamic_chunk_index` / `fixed_chunk_index`,
`src/api2/backup.rs:566-701`) -/

/-- The body streamed back by an index download: either the empty body or
the `DigestListEncoder` encoding of the index's digests (the encoder itself
is outside the tree; its output is modelled as the digest list it encodes). -/
inductive IndexDownloadResponse where
  | empty : IndexDownloadResponse
  | digestList : List Digest → IndexDownloadResponse
deriving Repr, DecidableEq

/-- `(end - start) as u32` on u64 offsets: wrapping u64 subtraction followed
by truncation to u32. -/
def sizeCastU32 (endOff start : Nat) : Nat :=
  ((endOff + 2 ^ 64 - start % 2 ^ 64) % 2 ^ 64) % 2 ^ 32

/-- The loop of `dynamic_chunk_index` (`src/api2/backup.rs:606-611`):
`chunk_info pos` yields `(start, end, digest)` where `start` is the previous
entry's end offset (0 for the first entry); each digest is registered with
size `(end - start) as u32`. -/
def registerDynamicEntries (env : BackupEnv) (start : Nat) :
    List (Nat × Digest) → BackupEnv
  | [] => env
  | (endOff, digest) :: rest =>
    registerDynamicEntries (env.register_chunk digest (sizeCastU32 endOff start))
      endOff rest

/-- `dynamic_chunk_index` (`src/api2/backup.rs:566-623`). -/
def dynamic_chunk_index (env : BackupEnv) (archive_name : Str) :
    Except Str (IndexDownloadResponse × BackupEnv) :=
  if ¬ ".didx".data.isSuffixOf archive_name then
    .error "wrong archive extension".data
  else
    match env.last_backup with
    | none => .ok (.empty, env)
    | some last =>
      match alookup archive_name last.didx with
      | none => .ok (.empty, env)
      | some index =>
        let env' := registerDynamicEntries env 0 index.entries
        .ok (.digestList (index.entries.map (·.2)), env')

/-- The loop of `fixed_chunk_index` (`src/api2/backup.rs:679-689`): chunk
`pos` covers `[pos*chunk_size, min((pos+1)*chunk_size, image_size))` ("last
chunk can be smaller"); each digest is registered with size
`(end - start) as u32`. -/
def registerFixedEntries (env : BackupEnv) (index : FixedIndexFile) (pos : Nat) :
    List Digest → BackupEnv
  | [] => env
  | digest :: rest =>
    let start := pos * index.chunk_size
    let endOff := min (start + index.chunk_size) index.size
    registerFixedEntries (env.register_chunk digest (sizeCastU32 endOff start))
      index (pos + 1) rest

/-- `fixed_chunk_index` (`src/api2/backup.rs:639-701`). -/
def fixed_chunk_index (env : BackupEnv) (archive_name : Str) :
    Except Str (IndexDownloadResponse × BackupEnv) :=
  if ¬ ".fidx".data.isSuffixOf archive_name then
    .error "wrong archive extension".data
  else
    match env.last_backup with
    | none => .ok (.empty, env)
    | some last =>
      match alookup archive_name last.fidx with
      | none => .ok (.empty, env)
      | some index =>
        let env' := registerFixedEntries env index 0 index.digests
        .ok (.digestList index.digests, env')

/-! ## `BackupGroup` and its path parser (`src/backup/backup_info.rs`)

`BackupGroup::parse` applies `GROUP_PATH_REGEX`, which is
`(host|vm|ct)/([A-Za-z0-9][A-Za-z0-9_-]+)$` — anchored at the end only.  The
regex is modelled by a direct matcher: the three type alternatives start with
pairwise distinct characters, so at most one can match at a given position,
and the id character class excludes `/` and is followed by `$`, so the id
capture is exactly the remainder of the string with no backtracking; the
unanchored start is the usual leftmost-match scan over start positions. -/

/-- `[A-Za-z0-9]`. -/
def isAlnumChar (c : Char) : Bool :=
  ('A' ≤ c && c ≤ 'Z') || ('a' ≤ c && c ≤ 'z') || ('0' ≤ c && c ≤ '9')

/-- `[A-Za-z0-9_-]`. -/
def isIdChar (c : Char) : Bool :=
  isAlnumChar c || c = '_' || c = '-'

/-- `BACKUP_ID_RE!()`, i.e. `[A-Za-z0-9][A-Za-z0-9_-]+`, matched against the
whole string (one head character plus at least one more). -/
def idAccept (s : Str) : Bool :=
  match s with
  | [] => false
  | c :: rest => isAlnumChar c && !rest.isEmpty && rest.all isIdChar

/-- Strip a literal from the front of a string, returning the remainder. -/
def dropLit (p s : Str) : Option Str :=
  match p, s with
  | [], s => some s
  | _ :: _, [] => none
  | c :: p', c' :: s' => if c = c' then dropLit p' s' else none

/-- The three backup types of `BACKUP_TYPE_RE!()`. -/
def backupTypes : List Str := ["host".data, "vm".data, "ct".data]

/-- The alternation `(host|vm|ct)` at the current position, in the regex's
alternative order, returning the matched type and the remainder. -/
def typeAlt (s : Str) : Option (Str × Str) :=
  match dropLit "host".data s with
  | some rest => some ("host".data, rest)
  | none =>
    match dropLit "vm".data s with
    | some rest => some ("vm".data, rest)
    | none =>
      match dropLit "ct".data s with
      | some rest => some ("ct".data, rest)
      | none => none

/-- `GROUP_PATH_REGEX` matched at one start position: the type alternation,
a `/`, then the id class up to the end of the string. -/
def groupMatchAt (s : Str) : Option (Str × Str) :=
  match typeAlt s with
  | some (t, '/' :: rest2) => if idAccept rest2 then some (t, rest2) else none
  | _ => none

/-- Leftmost-match scan of `GROUP_PATH_REGEX` over the start positions. -/
def groupRegexFind : Str → Option (Str × Str)
  | [] =>
    (match groupMatchAt [] with
     | some r => some r
     | none => none)
  | c :: rest =>
    (match groupMatchAt (c :: rest) with
     | some r => some r
     | none => groupRegexFind rest)

/-- `BackupGroup` (`src/backup/backup_info.rs:39-44`). -/
structure BackupGroup where
  backup_type : Str
  backup_id : Str
deriving Repr, DecidableEq

/-- `BackupGroup::parse` (`src/backup/backup_info.rs:60-69`): capture groups
1 and 2 of the leftmost `GROUP_PATH_REGEX` match, or an error. -/
def BackupGroup.parse (path : Str) : Except Str BackupGroup :=
  match groupRegexFind path with
  | none => .error "unable to parse backup group path".data
  | some (t, i) => .ok ⟨t, i⟩

/-! ## `BackupRepository` (`src/client/backup_repo.rs`)

`BACKUP_REPO_URL_REGEX` is `^(?:(?:([\w@]+)@)?([\w\-_.]+):)?(\w+)$`.  The
matcher below implements the regex's leftmost-first semantics directly: the
outer optional group is preferred over the bare-store alternative, the inner
user group is preferred over no user, and the greedy `([\w@]+)@` backtracks
from the longest user candidate downward (the candidates are exactly the
splits of the input at an `@` whose left part is a nonempty `[\w@]` run);
`[\w\-_.]+` and `(\w+)` exclude `:`, so the host split at the `:` is unique. -/

/-- `\w` = `[A-Za-z0-9_]`. -/
def isWordChar (c : Char) : Bool :=
  isAlnumChar c || c = '_'

/-- `[\w@]`. -/
def isUserChar (c : Char) : Bool :=
  isWordChar c || c = '@'

/-- `[\w\-_.]`. -/
def isHostChar (c : Char) : Bool :=
  isWordChar c || c = '-' || c = '.'

/-- `BackupRepository` (`src/client/backup_repo.rs:19-27`). -/
structure BackupRepository where
  user : Option Str
  host : Option Str
  store : Str
deriving Repr, DecidableEq

/-- The `user()` accessor: defaults to `root@pam`
(`src/client/backup_repo.rs:35-40`). -/
def BackupRepository.user' (r : BackupRepository) : Str :=
  r.user.getD "root@pam".data

/-- The `host()` accessor: defaults to `localhost`
(`src/client/backup_repo.rs:42-47`). -/
def BackupRepository.host' (r : BackupRepository) : Str :=
  r.host.getD "localhost".data

/-- The `store()` accessor (`src/client/backup_repo.rs:49-51`). -/
def BackupRepository.store' (r : BackupRepository) : Str :=
  r.store

/-- `impl fmt::Display for BackupRepository`
(`src/client/backup_repo.rs:54-64`): `user@host():store` when a user is set
(note the *defaulted* host accessor), `host:store` when only a host is set,
else just `store`. -/
def BackupRepository.display (r : BackupRepository) : Str :=
  match r.user with
  | some u => u ++ '@' :: (r.host' ++ ':' :: r.store)
  | none =>
    match r.host with
    | some h => h ++ ':' :: r.store
    | none => r.store

/-- All splits `s = u ++ '@' :: rest` ordered by ascending `|u|` (the order
the splits occur left to right). -/
def atSplits : Str → List (Str × Str)
  | [] => []
  | c :: rest =>
    let tail := (atSplits rest).map (fun p => (c :: p.1, p.2))
    if c = '@' then ([], rest) :: tail else tail

/-- First success of `f` over a list (the backtracking order). -/
def firstSome {α β : Type} (f : α → Option β) : List α → Option β
  | [] => none
  | a :: rest =>
    match f a with
    | some b => some b
    | none => firstSome f rest

/-- Match `([\w\-_.]+):(\w+)$`: the host run is delimited by the first `:`
(the class excludes `:`), the store must fill the rest of the string. -/
def hostColonStore (s : Str) : Option (Str × Str) :=
  match s.dropWhile isHostChar with
  | ':' :: st =>
    if s.takeWhile isHostChar ≠ [] ∧ st ≠ [] ∧ st.all isWordChar then
      some (s.takeWhile isHostChar, st)
    else none
  | _ => none

/-- `impl FromStr for BackupRepository`
(`src/client/backup_repo.rs:66-85`): apply `BACKUP_REPO_URL_REGEX` and build
the repository from the three captures. -/
def BackupRepository.from_str (s : Str) : Except Str BackupRepository :=
  match firstSome
      (fun p =>
        if p.1 ≠ [] ∧ p.1.all isUserChar then
          (hostColonStore p.2).map
            (fun q => (⟨some p.1, some q.1, q.2⟩ : BackupRepository))
        else none)
      (atSplits s).reverse with
  | some r => .ok r
  | none =>
    match hostColonStore s with
    | some q => .ok ⟨none, some q.1, q.2⟩
    | none =>
      if s ≠ [] ∧ s.all isWordChar then .ok ⟨none, none, s⟩
      else .error "unable to parse repository url".data

/-! ## `BackupDir` and its RFC-3339 snapshot paths (`src/backup/backup_info.rs`)

`BackupDir` stores a `chrono::DateTime<Local>` built by
`Local.timestamp(ts, 0)`; `relative_path` renders it with `to_rfc3339`, and
`parse` applies `SNAPSHOT_PATH_REGEX` (whose time component
`BACKUP_TIME_RE` is `[0-9]{4}-[0-9]{2}-[0-9]{2}T[0-9]{2}:[0-9]{2}:[0-9]{2}\+[0-9]{2}:[0-9]{2}`,
a `+`-signed numeric zone only) and re-parses the matched time with chrono.

chrono is an external crate; it is modelled as follows.  The ambient local
timezone is a fixed UTC offset `off` in whole minutes (a parameter of the
model).  Timestamp-to-civil conversion is the proleptic Gregorian calendar,
implemented with the standard civil-from-days/days-from-civil algorithms
(these compute the same function chrono does).  `to_rfc3339` renders
`yyyy-mm-ddThh:mm:ss±hh:mm` with zero-padded fields; years outside
0000..9999 render with a sign/extra digits and can never re-parse, because
`BACKUP_TIME_RE` demands exactly four year digits.  chrono's parser is
modelled on the strings `BACKUP_TIME_RE` admits: it extracts the numeric
fields and validates them structurally (month 1..12, day 1..31, hour ≤ 23,
minute/second ≤ 59, offset ≤ 23:59); chrono's exact day-of-month validation
is not modelled, as parsing is only ever applied to rendered timestamps
here.  `DateTime::timestamp()` is offset-independent. -/

/-- Days-to-civil conversion (proleptic Gregorian): day number relative to
1970-01-01 to `(year, month, day)`. -/
def civilFromDays (z : Int) : Int × Int × Int :=
  let n := z + 719468
  let era := n / 146097
  let doe := n % 146097
  let yoe := (doe - doe / 1460 + doe / 36524 - doe / 146096) / 365
  let doy := doe - (365 * yoe + yoe / 4 - yoe / 100)
  let mp := (5 * doy + 2) / 153
  let d := doy - (153 * mp + 2) / 5 + 1
  let m := mp + (if mp < 10 then 3 else -9)
  (yoe + era * 400 + (if m ≤ 2 then 1 else 0), m, d)

/-- Civil-to-days conversion (proleptic Gregorian), the inverse of
`civilFromDays`. -/
def daysFromCivil (y m d : Int) : Int :=
  let y' := y - (if m ≤ 2 then 1 else 0)
  let era := y' / 400
  let yoe := y' - era * 400
  let doy := (153 * (m + (if m > 2 then -3 else 9)) + 2) / 5 + d - 1
  let doe := yoe * 365 + yoe / 4 - yoe / 100 + doy
  era * 146097 + doe - 719468

/-- The civil datetime a `DateTime<Local>` presents: calendar fields plus
the local offset in minutes. -/
structure CivilDateTime where
  year : Int
  month : Int
  day : Int
  hour : Int
  minute : Int
  second : Int
  offMinutes : Int
deriving Repr, DecidableEq

/-- `Local.timestamp(t, 0)` viewed through the local offset `off` (minutes):
the civil fields of instant `t`. -/
def localFromTimestamp (off t : Int) : CivilDateTime :=
  let lt := t + off * 60
  let days := lt / 86400
  let secs := lt % 86400
  let c := civilFromDays days
  ⟨c.1, c.2.1, c.2.2, secs / 3600, (secs % 3600) / 60, secs % 60, off⟩

/-- The digit character for `n < 10`. -/
def digitChar (n : Nat) : Char := Char.ofNat (48 + n)

/-- The numeric value of a digit character. -/
def digitVal (c : Char) : Nat := c.toNat - 48

/-- `[0-9]`. -/
def isDigitChar (c : Char) : Bool := '0' ≤ c && c ≤ '9'

/-- Two-digit zero-padded rendering (for `n < 100`). -/
def pad2 (n : Nat) : Str := [digitChar (n / 10), digitChar (n % 10)]

/-- Four-digit zero-padded rendering (for `n < 10000`). -/
def pad4 (n : Nat) : Str :=
  [digitChar (n / 1000), digitChar (n / 100 % 10), digitChar (n / 10 % 10),
   digitChar (n % 10)]

/-- chrono's `%Y`: four zero-padded digits inside 0..9999, a sign and full
digits outside that range (such years never match `BACKUP_TIME_RE`). -/
def yearStr (y : Int) : Str :=
  if y < 0 then '-' :: pad4 y.natAbs
  else if y > 9999 then '+' :: Nat.toDigits 10 y.toNat
  else pad4 y.toNat

/-- `DateTime::to_rfc3339` for a whole-second datetime:
`yyyy-mm-ddThh:mm:ss±hh:mm`. -/
def to_rfc3339 (dt : CivilDateTime) : Str :=
  yearStr dt.year ++ '-' :: pad2 dt.month.toNat ++ '-' :: pad2 dt.day.toNat ++
  'T' :: pad2 dt.hour.toNat ++ ':' :: pad2 dt.minute.toNat ++
  ':' :: pad2 dt.second.toNat ++
  (if dt.offMinutes < 0 then '-' else '+') ::
    pad2 (dt.offMinutes.natAbs / 60) ++ ':' :: pad2 (dt.offMinutes.natAbs % 60)

/-- `BACKUP_TIME_RE` shape check and field extraction in one step: exactly
25 characters `dddd-dd-ddTdd:dd:dd+dd:dd` (the regex only admits `+`), and
the numeric values `(y, month, day, hour, min, sec, offh, offm)`. -/
def extractTime (s : Str) : Option (Nat × Nat × Nat × Nat × Nat × Nat × Nat × Nat) :=
  match s with
  | [y1, y2, y3, y4, '-', m1, m2, '-', d1, d2, 'T', h1, h2, ':', i1, i2, ':',
     s1, s2, '+', o1, o2, ':', o3, o4] =>
    if [y1, y2, y3, y4, m1, m2, d1, d2, h1, h2, i1, i2, s1, s2, o1, o2, o3,
        o4].all isDigitChar then
      some (1000 * digitVal y1 + 100 * digitVal y2 + 10 * digitVal y3 + digitVal y4,
            10 * digitVal m1 + digitVal m2,
            10 * digitVal d1 + digitVal d2,
            10 * digitVal h1 + digitVal h2,
            10 * digitVal i1 + digitVal i2,
            10 * digitVal s1 + digitVal s2,
            10 * digitVal o1 + digitVal o2,
            10 * digitVal o3 + digitVal o4)
    else none
  | _ => none

/-- chrono parse of a `BACKUP_TIME_RE` time followed by `.timestamp()`:
extract the fields, validate ranges, convert to the instant.  The offset is
positive (`BACKUP_TIME_RE` only admits `+`). -/
def chronoParseTimestamp (s : Str) : Option Int :=
  match extractTime s with
  | none => none
  | some (y, mo, dy, h, mi, sec, oh, om) =>
    if 1 ≤ mo ∧ mo ≤ 12 ∧ 1 ≤ dy ∧ dy ≤ 31 ∧ h ≤ 23 ∧ mi ≤ 59 ∧ sec ≤ 59 ∧
        oh ≤ 23 ∧ om ≤ 59 then
      some (daysFromCivil (y : Int) (mo : Int) (dy : Int) * 86400 +
        (h : Int) * 3600 + (mi : Int) * 60 + (sec : Int) -
        ((oh : Int) * 60 + (om : Int)) * 60)
    else none

/-- `SNAPSHOT_PATH_REGEX` matched at one start position:
`(host|vm|ct)/(id)/(time)$`.  The id class excludes `/`, so the greedy id
run is delimited by the following `/` with no backtracking, and the time
part must consume the rest of the string. -/
def snapshotMatchAt (s : Str) : Option (Str × Str × Str) :=
  match typeAlt s with
  | some (t, '/' :: rest) =>
    match rest.dropWhile isIdChar with
    | '/' :: timePart =>
      if idAccept (rest.takeWhile isIdChar) ∧ (extractTime timePart).isSome then
        some (t, rest.takeWhile isIdChar, timePart)
      else none
    | _ => none
  | _ => none

/-- Leftmost-match scan of `SNAPSHOT_PATH_REGEX`. -/
def snapshotRegexFind : Str → Option (Str × Str × Str)
  | [] =>
    (match snapshotMatchAt [] with
     | some r => some r
     | none => none)
  | c :: rest =>
    (match snapshotMatchAt (c :: rest) with
     | some r => some r
     | none => snapshotRegexFind rest)

/-- `BackupDir` (`src/backup/backup_info.rs:108-113`): a group plus the
backup instant.  `Local.timestamp(timestamp, 0)` stores the instant with
zero nanoseconds; the model keeps the instant (unix seconds) itself, as all
observations in scope (`timestamp()`, comparisons, rendering at the ambient
offset) are functions of it. -/
structure BackupDir where
  group : BackupGroup
  backup_time : Int
deriving Repr, DecidableEq

/-- `BackupDir::relative_path` (`src/backup/backup_info.rs:147-154`):
`<type>/<id>/<to_rfc3339 of the backup time at the local offset>`. -/
def BackupDir.relative_path (off : Int) (dir : BackupDir) : Str :=
  dir.group.backup_type ++ '/' ::
    (dir.group.backup_id ++ '/' ::
      to_rfc3339 (localFromTimestamp off dir.backup_time))

/-- `BackupDir::parse` (`src/backup/backup_info.rs:137-145`): match
`SNAPSHOT_PATH_REGEX`, parse the time capture with chrono, keep its
`timestamp()`. -/
def BackupDir.parse (path : Str) : Except Str BackupDir :=
  match snapshotRegexFind path with
  | none => .error "unable to parse backup snapshot path".data
  | some (t, i, timeStr) =>
    match chronoParseTimestamp timeStr with
    | none => .error "invalid date time".data
    | some ts => .ok ⟨⟨t, i⟩, ts⟩

/-! ## `SectionConfig` (`src/section_config.rs`)

The section-config file format: `write` renders each section as a header
line `<type>: <id>` followed by one `\t<key> <value>` line per non-null
property, with a blank line between sections; `parse` runs the line-based
state machine back.  JSON values are modelled by `CValue` restricted to the
flat values in scope (null, booleans, strings and integer numbers; float
numbers are outside the model).  The `proxmox` schema crate is external:
`parse_simple_value` / `verify_json_object` are modelled for unconstrained
boolean/integer/string property schemas, and the id schema is modelled as an
unconstrained string schema (so `parse_simple_value` on a section id always
succeeds).  Rust's `char::is_whitespace` is modelled by the full Unicode
White_Space set and `char::is_control` by the exact Cc category;
`char::is_alphabetic` is modelled on its ASCII part, which appears only as a
positive requirement on type names and therefore only narrows the
hypotheses. -/

/-- Flat JSON values (`serde_json::Value` restricted to the claim's scope). -/
inductive CValue where
  | null : CValue
  | bool : Bool → CValue
  | str : Str → CValue
  | int : Int → CValue
deriving Repr, DecidableEq

/-- Property schema kinds (`proxmox::api::schema::Schema`, unconstrained). -/
inductive PropSchema where
  | boolean : PropSchema
  | integer : PropSchema
  | string : PropSchema
deriving Repr, DecidableEq

/-- `SectionConfigPlugin` (`src/section_config.rs:14-17`): a type name and
the object schema, as `(name, optional, schema)` triples. -/
structure SectionPlugin where
  type_name : Str
  properties : List (Str × Bool × PropSchema)
deriving Repr, DecidableEq

/-- `SectionConfig` (`src/section_config.rs:27-34`) with the default header
parser/formatter and an unconstrained id schema; the plugin map is keyed by
type name (`register_plugin`, line 121-123). -/
structure SectionConfig where
  plugins : List (Str × SectionPlugin)
deriving Repr, DecidableEq

/-- `SectionConfigData` (`src/section_config.rs:41-45`): the section map
`id → (type_name, object)` plus the recorded order. -/
structure SectionConfigData where
  sections : List (Str × (Str × List (Str × CValue)))
  order : List Str
deriving Repr, DecidableEq

/-- Rust `char::is_whitespace`: the Unicode White_Space code points
(U+0009-U+000D, U+0020, U+0085, U+00A0, U+1680, U+2000-U+200A, U+2028,
U+2029, U+202F, U+205F, U+3000). -/
def isWsChar (c : Char) : Bool :=
  c.toNat = 32 || (9 ≤ c.toNat && c.toNat ≤ 13) ||
  c.toNat = 133 || c.toNat = 160 || c.toNat = 5760 ||
  (8192 ≤ c.toNat && c.toNat ≤ 8202) ||
  c.toNat = 8232 || c.toNat = 8233 || c.toNat = 8239 ||
  c.toNat = 8287 || c.toNat = 12288

/-- Rust `char::is_control`: exactly the Cc category (U+0000-U+001F and
U+007F-U+009F). -/
def isCtrlChar (c : Char) : Bool :=
  c.toNat < 32 || (127 ≤ c.toNat && c.toNat ≤ 159)

/-- ASCII part of Rust `char::is_alphabetic`. -/
def isAsciiAlpha (c : Char) : Bool :=
  (65 ≤ c.toNat && c.toNat ≤ 90) || (97 ≤ c.toNat && c.toNat ≤ 122)

/-- Rust `str::trim`. -/
def trim (s : Str) : Str :=
  ((s.dropWhile isWsChar).reverse.dropWhile isWsChar).reverse

/-- Decimal digits of a positive number, most significant first. -/
def natDigitsRec : Nat → Str
  | 0 => []
  | n + 1 => natDigitsRec ((n + 1) / 10) ++ [digitChar ((n + 1) % 10)]
decreasing_by exact Nat.div_lt_self (Nat.succ_pos n) (by omega)

/-- Decimal rendering of a natural number. -/
def natRender (n : Nat) : Str :=
  if n = 0 then "0".data else natDigitsRec n

/-- `i64` / serde `Number` decimal rendering. -/
def intRender (n : Int) : Str :=
  if n < 0 then '-' :: natRender n.natAbs else natRender n.toNat

/-- The numeric value of a digit string (most significant first). -/
def digitsVal (s : Str) : Nat :=
  s.foldl (fun acc c => 10 * acc + digitVal c) 0

/-- Parse a nonempty all-digit string. -/
def parseNatAll (s : Str) : Option Nat :=
  if s ≠ [] ∧ s.all isDigitChar then some (digitsVal s) else none

/-- Rust `i64::from_str`: optional sign, digits, i64 range check. -/
def parseI64 (s : Str) : Option Int :=
  match s with
  | '-' :: rest =>
    (parseNatAll rest).bind fun n =>
      if (n : Int) ≤ 2 ^ 63 then some (-(n : Int)) else none
  | '+' :: rest =>
    (parseNatAll rest).bind fun n =>
      if (n : Int) < 2 ^ 63 then some (n : Int) else none
  | _ =>
    (parseNatAll s).bind fun n =>
      if (n : Int) < 2 ^ 63 then some (n : Int) else none

/-- Modelled from the spec: `proxmox`'s `parse_boolean` — `1/on/yes/true`
and `0/off/no/false`. -/
def parseBoolean (s : Str) : Option Bool :=
  if s = "1".data ∨ s = "on".data ∨ s = "yes".data ∨ s = "true".data then
    some true
  else if s = "0".data ∨ s = "off".data ∨ s = "no".data ∨ s = "false".data then
    some false
  else none

/-- Modelled from the spec: `proxmox`'s `parse_simple_value` for the
unconstrained schemas in scope. -/
def parse_simple_value (v : Str) : PropSchema → Except Str CValue
  | .boolean =>
    match parseBoolean v with
    | some b => .ok (.bool b)
    | none => .error "unable to parse boolean".data
  | .integer =>
    match parseI64 v with
    | some n => .ok (.int n)
    | none => .error "unable to parse integer".data
  | .string => .ok (.str v)

/-- Does a value conform to a property schema (`null` passes; `write` skips
nulls)? -/
def conforms : CValue → PropSchema → Bool
  | .null, _ => true
  | .bool _, .boolean => true
  | .int _, .integer => true
  | .str _, .string => true
  | _, _ => false

/-- Modelled from the spec: `proxmox`'s `verify_json_object` — every present
key must be a registered property and its value must have the schema's
type. -/
def verify_json_object (obj : List (Str × CValue))
    (props : List (Str × Bool × PropSchema)) : Except Str Unit :=
  match obj with
  | [] => .ok ()
  | (k, v) :: rest =>
    match alookup k props with
    | none => .error "verify: unknown property".data
    | some (_, ps) =>
      if conforms v ps then verify_json_object rest props
      else .error "verify: wrong value type".data

/-- The text of one property value (`src/section_config.rs:164-173`);
`none` encodes the `bail!` on unsupported types (unreachable for `CValue`). -/
def propText : CValue → Option Str
  | .null => some []
  | .bool b => some (if b then "true".data else "false".data)
  | .str s => some s
  | .int n => some (intRender n)

/-- Render one section (`src/section_config.rs:145-183`): header check and
line, then one `\t<key> <value>\n` line per non-null property. -/
def renderProps (sid : Str) : List (Str × CValue) → Except Str Str
  | [] => .ok []
  | (k, v) :: rest =>
    match v with
    | .null => renderProps sid rest
    | _ =>
      match propText v with
      | none => .error "got unsupported type".data
      | some text =>
        if text.any isCtrlChar then
          .error "detected unexpected control character in value".data
        else
          (renderProps sid rest).map
            (fun tail => '\t' :: k ++ ' ' :: text ++ '\n' :: tail)

/-- `default_format_section_header` (`src/section_config.rs:285-287`). -/
def default_format_section_header (type_name sid : Str) : Str :=
  type_name ++ ':' :: ' ' :: sid ++ ['\n']

/-- One section of `write` (`src/section_config.rs:145-183`): plugin lookup
(`.unwrap()`, a panic on unregistered types, modelled as an error), the id
checks, `verify_json_object`, header plus property lines. -/
def writeSection (self : SectionConfig) (cfg : SectionConfigData) (sid : Str) :
    Except Str Str :=
  match alookup sid cfg.sections with
  | none => .error "panic: section vanished".data
  | some (type_name, obj) =>
    match alookup type_name self.plugins with
    | none => .error "panic: unregistered plugin type".data
    | some plugin =>
      if sid.any isCtrlChar then
        .error "detected unexpected control character in section ID".data
      else
        match verify_json_object obj plugin.properties with
        | .error e => .error e
        | .ok () =>
          (renderProps sid obj).map
            (fun body => default_format_section_header type_name sid ++ body)

/-- The ids `write` iterates (`src/section_config.rs:128-141`): the recorded
order filtered to live sections, then the remaining sections. -/
def writeIds (cfg : SectionConfigData) : List Str :=
  let part1 := cfg.order.filter (fun sid => (alookup sid cfg.sections).isSome)
  part1 ++ (cfg.sections.map Prod.fst).filter (fun sid => ¬ part1.contains sid)

/-- The body loop of `write`: sections joined by blank lines. -/
def writeList (self : SectionConfig) (cfg : SectionConfigData) :
    List Str → Except Str Str
  | [] => .ok []
  | [sid] => writeSection self cfg sid
  | sid :: rest =>
    match writeSection self cfg sid with
    | .error e => .error e
    | .ok head =>
      match writeList self cfg rest with
      | .error e => .error e
      | .ok tail => .ok (head ++ '\n' :: tail)

/-- `SectionConfig::write` (`src/section_config.rs:125-187`). -/
def SectionConfig.write (self : SectionConfig) (cfg : SectionConfigData) :
    Except Str Str :=
  writeList self cfg (writeIds cfg)

/-- `default_parse_section_header` (`src/section_config.rs:313-336`). -/
def default_parse_section_header (line : Str) : Option (Str × Str) :=
  match line with
  | [] => none
  | c :: _ =>
    if ¬ isAsciiAlpha c then none
    else
      let st := trim (line.takeWhile (fun ch => ch ≠ ':'))
      match line.dropWhile (fun ch => ch ≠ ':') with
      | [] => none
      | _ :: rest => if st = [] then none else some (st, trim rest)

/-- `default_parse_section_content` (`src/section_config.rs:289-311`). -/
def default_parse_section_content (line : Str) : Option (Str × Str) :=
  match line with
  | [] => none
  | c :: _ =>
    if ¬ isWsChar c then none
    else
      let t := line.dropWhile isWsChar
      let key := trim (t.takeWhile (fun ch => ¬ isWsChar ch))
      match t.dropWhile (fun ch => ¬ isWsChar ch) with
      | [] => none
      | _ :: rest => if key = [] then none else some (key, trim rest)

/-- Split a string at every newline, keeping a (possibly empty) last
segment. -/
def linesAux : Str → List Str
  | [] => [[]]
  | c :: rest =>
    if c = '\n' then [] :: linesAux rest
    else
      match linesAux rest with
      | l :: ls => (c :: l) :: ls
      | [] => [[c]]

/-- Rust `str::lines`: split on `\n`, without a trailing empty line.  (The
`\r\n` handling of Rust is not modelled; `write` never emits `\r`.) -/
def rustLines (s : Str) : List Str :=
  match s with
  | [] => []
  | _ =>
    let parts := linesAux s
    if parts.getLast? = some [] then parts.dropLast else parts

/-- `test_required_properties` (`src/section_config.rs:193-200`). -/
def test_required_properties (obj : List (Str × CValue)) :
    List (Str × Bool × PropSchema) → Except Str Unit
  | [] => .ok ()
  | (name, optional, _) :: rest =>
    if optional = false ∧ (alookup name obj).isNone then
      .error "property is missing and it is not optional".data
    else test_required_properties obj rest

/-- The parser state (`src/section_config.rs:36-39`). -/
inductive ParseState where
  | beforeHeader : ParseState
  | insideSection : SectionPlugin → Str → List (Str × CValue) → ParseState

/-- Record a finished section (`set_data` + `record_order`,
`src/section_config.rs:53-62,84-86`). -/
def recordSection (acc : SectionConfigData) (sid type_name : Str)
    (obj : List (Str × CValue)) : SectionConfigData :=
  { sections := ainsert sid (type_name, obj) acc.sections,
    order := acc.order ++ [sid] }

/-- The line loop of `parse` (`src/section_config.rs:204-278`). -/
def parseLines (self : SectionConfig) :
    List Str → ParseState → SectionConfigData → Except Str SectionConfigData
  | [], .beforeHeader, acc => .ok acc
  | [], .insideSection plugin sid obj, acc =>
    (test_required_properties obj plugin.properties).map
      (fun _ => recordSection acc sid plugin.type_name obj)
  | line :: rest, .beforeHeader, acc =>
    if trim line = [] then parseLines self rest .beforeHeader acc
    else
      match default_parse_section_header line with
      | some (section_type, section_id) =>
        match alookup section_type self.plugins with
        | some plugin =>
          parseLines self rest (.insideSection plugin section_id []) acc
        | none => .error "unknown section type".data
      | none => .error "syntax error (expected header)".data
  | line :: rest, .insideSection plugin sid obj, acc =>
    if trim line = [] then
      match test_required_properties obj plugin.properties with
      | .error e => .error e
      | .ok () =>
        parseLines self rest .beforeHeader
          (recordSection acc sid plugin.type_name obj)
    else
      match default_parse_section_content line with
      | some (key, value) =>
        match alookup key plugin.properties with
        | some (_, prop_schema) =>
          match parse_simple_value value prop_schema with
          | .ok v =>
            if (alookup key obj).isNone then
              parseLines self rest
                (.insideSection plugin sid (obj ++ [(key, v)])) acc
            else .error "duplicate property".data
          | .error e => .error e
        | none => .error "unknown property".data
      | none => .error "syntax error (expected section properties)".data

/-- `SectionConfig::parse` (`src/section_config.rs:189-283`). -/
def SectionConfig.parse (self : SectionConfig) (raw : Str) :
    Except Str SectionConfigData :=
  parseLines self (rustLines raw) .beforeHeader ⟨[], []⟩

/-- A rendered digit together with the facts the round trip needs: it is a
decimal digit, not a control, whitespace, sign or newline character. -/
def goodDigit (c : Char) : Bool :=
  isDigitChar c && !(isCtrlChar c) && !(isWsChar c) &&
    !(c = '-' : Bool) && !(c = '+' : Bool)

/-- The round-trip side conditions on one property value: strings must be
control-free and trim-invariant (`parse` trims the value text), integers
must fit `i64`. -/
def valueOkB : CValue → Bool
  | .null => true
  | .bool _ => true
  | .str s => decide (trim s = s) && !(s.any isCtrlChar)
  | .int n => decide (-(2 ^ 63) ≤ n) && decide (n < 2 ^ 63)

/-- The executable round-trip side conditions on one section: the id is
trim-invariant and control-free, the type name is a nonempty ASCII-alphabetic
word registered under itself in the plugin map, every property key is
nonempty, whitespace-free and unique, every value satisfies `valueOkB`, the
object verifies against the schema, and the required properties are present
among the non-null values. -/
def sectionOkB (self : SectionConfig) (cfg : SectionConfigData) (sid : Str) :
    Bool :=
  match alookup sid cfg.sections with
  | none => false
  | some (ty, obj) =>
    match alookup ty self.plugins with
    | none => false
    | some plugin =>
      decide (plugin.type_name = ty) &&
      decide (trim sid = sid) && !(sid.any isCtrlChar) &&
      !(ty.isEmpty) && ty.all isAsciiAlpha &&
      obj.all (fun kv =>
        !(kv.1.isEmpty) && kv.1.all (fun c => !(isWsChar c)) && valueOkB kv.2) &&
      decide ((obj.map Prod.fst).Nodup) &&
      decide (verify_json_object obj plugin.properties = .ok ()) &&
      decide (test_required_properties
        (obj.filter (fun kv => decide (kv.2 ≠ CValue.null))) plugin.properties
        = .ok ())

/-- What `parse` recovers for one section of `cfg`: the stored type name and
the object with its null-valued properties dropped. -/
def pSection (cfg : SectionConfigData) (sid : Str) :
    Str × List (Str × CValue) :=
  match alookup sid cfg.sections with
  | some (ty, obj) => (ty, obj.filter (fun kv => decide (kv.2 ≠ CValue.null)))
  | none => ([], [])

/-- Record the parsed form of every listed section of `cfg` in order. -/
def recordAll (cfg : SectionConfigData) (acc : SectionConfigData)
    (ids : List Str) : SectionConfigData :=
  ids.foldl
    (fun a sid => recordSection a sid (pSection cfg sid).1 (pSection cfg sid).2)
    acc

/-! ## Lemmas about the association-list maps -/

theorem alookup_ainsert_self {α : Type} [DecidableEq α] {β : Type}
    (k : α) (v : β) (l : List (α × β)) :
    alookup k (ainsert k v l) = some v := by
  induction l with
  | nil => simp [alookup, ainsert]
  | cons hd tl ih =>
    obtain ⟨k', v'⟩ := hd
    by_cases h : k = k' <;> simp [alookup, ainsert, h, ih]

theorem alookup_ainsert_ne {α : Type} [DecidableEq α] {β : Type}
    (k k' : α) (v : β) (l : List (α × β)) (h : k' ≠ k) :
    alookup k' (ainsert k v l) = alookup k' l := by
  induction l with
  | nil => simp [alookup, ainsert, h]
  | cons hd tl ih =>
    obtain ⟨k'', v''⟩ := hd
    by_cases h2 : k = k''
    · subst h2; simp [alookup, ainsert, h]
    · by_cases h3 : k' = k'' <;> simp [alookup, ainsert, h2, h3, ih]

/-! ## Lemmas about the append loops -/

theorem dynamic_writer_append_chunk_ok (env : BackupEnv) (wid off sz : Nat)
    (digest : Digest) (env' : BackupEnv)
    (h : env.dynamic_writer_append_chunk wid off sz digest = .ok env') :
    env'.known_chunks = env.known_chunks ∧
    env'.fixed_writers = env.fixed_writers ∧
    (∃ w, alookup wid env.dynamic_writers = some w ∧
      env'.dynamic_writers =
        ainsert wid
          { w with index := w.index ++ [(off, digest)], offset := off,
                   chunk_count := w.chunk_count + 1 }
          env.dynamic_writers) := by
  unfold BackupEnv.dynamic_writer_append_chunk at h
  split at h
  · exact absurd h (by simp)
  · rename_i w hw
    split at h
    · exact absurd h (by simp)
    · simp only [Except.ok.injEq] at h
      subst h
      exact ⟨rfl, rfl, w, hw, rfl⟩

theorem fixed_writer_append_chunk_ok (env : BackupEnv) (wid off sz : Nat)
    (digest : Digest) (env' : BackupEnv)
    (h : env.fixed_writer_append_chunk wid off sz digest = .ok env') :
    env'.known_chunks = env.known_chunks ∧
    env'.dynamic_writers = env.dynamic_writers ∧
    (∃ w, alookup wid env.fixed_writers = some w ∧
      env'.fixed_writers =
        ainsert wid
          { w with slots := w.slots ++ [(off / w.chunk_size, digest)],
                   chunk_count := w.chunk_count + 1 }
          env.fixed_writers) := by
  unfold BackupEnv.fixed_writer_append_chunk at h
  split at h
  · exact absurd h (by simp)
  · rename_i w hw
    split at h
    · exact absurd h (by simp)
    · dsimp only at h
      split at h
      · exact absurd h (by simp)
      · simp only [Except.ok.injEq] at h
        subst h
        exact ⟨rfl, rfl, w, hw, rfl⟩

theorem dynamicAppendLoop_known (env : BackupEnv) (wid : Nat)
    (items : List (Digest × Nat)) :
    (dynamicAppendLoop env wid items).2.known_chunks = env.known_chunks := by
  induction items generalizing env with
  | nil => rfl
  | cons item rest ih =>
    obtain ⟨digest, off⟩ := item
    simp only [dynamicAppendLoop]
    split
    · rfl
    · rename_i sz hl
      split
      · rfl
      · rename_i env' ha
        have := dynamic_writer_append_chunk_ok env wid off sz digest env' ha
        rw [ih env', this.1]

theorem fixedAppendLoop_known (env : BackupEnv) (wid : Nat)
    (items : List (Digest × Nat)) :
    (fixedAppendLoop env wid items).2.known_chunks = env.known_chunks := by
  induction items generalizing env with
  | nil => rfl
  | cons item rest ih =>
    obtain ⟨digest, off⟩ := item
    simp only [fixedAppendLoop]
    split
    · rfl
    · rename_i sz hl
      split
      · rfl
      · rename_i env' ha
        have := fixed_writer_append_chunk_ok env wid off sz digest env' ha
        rw [ih env', this.1]

theorem dynamicAppendLoop_missing_digest (env : BackupEnv) (wid : Nat)
    (items : List (Digest × Nat)) (d : Digest)
    (hd : d ∈ items.map Prod.fst) (hnone : env.lookup_chunk d = none) :
    (dynamicAppendLoop env wid items).1.isSome := by
  induction items generalizing env with
  | nil => simp at hd
  | cons item rest ih =>
    obtain ⟨digest, off⟩ := item
    simp only [List.map_cons, List.mem_cons] at hd
    simp only [dynamicAppendLoop]
    split
    · simp
    · rename_i sz hl
      have hne : d ≠ digest := by
        intro he; rw [he, hl] at hnone; exact Option.noConfusion hnone
      have hd' : d ∈ rest.map Prod.fst := by
        rcases hd with h | h
        · exact absurd h hne
        · exact h
      split
      · simp
      · rename_i env' ha
        have hk := dynamic_writer_append_chunk_ok env wid off sz digest env' ha
        have : env'.lookup_chunk d = none := by
          unfold BackupEnv.lookup_chunk at hnone ⊢
          rw [hk.1]; exact hnone
        exact ih env' hd' this

theorem fixedAppendLoop_missing_digest (env : BackupEnv) (wid : Nat)
    (items : List (Digest × Nat)) (d : Digest)
    (hd : d ∈ items.map Prod.fst) (hnone : env.lookup_chunk d = none) :
    (fixedAppendLoop env wid items).1.isSome := by
  induction items generalizing env with
  | nil => simp at hd
  | cons item rest ih =>
    obtain ⟨digest, off⟩ := item
    simp only [List.map_cons, List.mem_cons] at hd
    simp only [fixedAppendLoop]
    split
    · simp
    · rename_i sz hl
      have hne : d ≠ digest := by
        intro he; rw [he, hl] at hnone; exact Option.noConfusion hnone
      have hd' : d ∈ rest.map Prod.fst := by
        rcases hd with h | h
        · exact absurd h hne
        · exact h
      split
      · simp
      · rename_i env' ha
        have hk := fixed_writer_append_chunk_ok env wid off sz digest env' ha
        have : env'.lookup_chunk d = none := by
          unfold BackupEnv.lookup_chunk at hnone ⊢
          rw [hk.1]; exact hnone
        exact ih env' hd' this

theorem dynamicAppendLoop_no_unknown (wid : Nat) (items : List (Digest × Nat))
    (env : BackupEnv) (d : Digest) (hnone : env.lookup_chunk d = none)
    (wid' : Nat) (w' : DynamicWriterState)
    (hw' : alookup wid' (dynamicAppendLoop env wid items).2.dynamic_writers = some w') :
    ∃ w, alookup wid' env.dynamic_writers = some w ∧
      ∀ off, (off, d) ∈ w'.index → (off, d) ∈ w.index := by
  induction items generalizing env w' with
  | nil => exact ⟨w', hw', fun _ h => h⟩
  | cons item rest ih =>
    obtain ⟨digest, off⟩ := item
    simp only [dynamicAppendLoop] at hw'
    split at hw'
    · exact ⟨w', hw', fun _ h => h⟩
    · rename_i sz hl
      split at hw'
      · exact ⟨w', hw', fun _ h => h⟩
      · rename_i env' ha
        have hne : digest ≠ d := by
          intro he; rw [he, hnone] at hl; exact Option.noConfusion hl
        obtain ⟨hk, _, w0, hw0, hdw⟩ :=
          dynamic_writer_append_chunk_ok env wid off sz digest env' ha
        have hnone' : env'.lookup_chunk d = none := by
          unfold BackupEnv.lookup_chunk at hnone ⊢
          rw [hk]; exact hnone
        obtain ⟨w1, hw1, himp1⟩ := ih env' hnone' w' hw'
        rw [hdw] at hw1
        by_cases hww : wid' = wid
        · subst hww
          rw [alookup_ainsert_self] at hw1
          refine ⟨w0, hw0, fun off' hmem => ?_⟩
          have := himp1 off' hmem
          rw [← Option.some_inj.mp hw1] at this
          simp only [List.mem_append, List.mem_singleton, Prod.mk.injEq] at this
          rcases this with h | ⟨_, h⟩
          · exact h
          · exact absurd h.symm hne
        · rw [alookup_ainsert_ne wid wid' _ _ hww] at hw1
          exact ⟨w1, hw1, himp1⟩

theorem fixedAppendLoop_no_unknown (wid : Nat) (items : List (Digest × Nat))
    (env : BackupEnv) (d : Digest) (hnone : env.lookup_chunk d = none)
    (wid' : Nat) (w' : FixedWriterState)
    (hw' : alookup wid' (fixedAppendLoop env wid items).2.fixed_writers = some w') :
    ∃ w, alookup wid' env.fixed_writers = some w ∧
      ∀ slot, (slot, d) ∈ w'.slots → (slot, d) ∈ w.slots := by
  induction items generalizing env w' with
  | nil => exact ⟨w', hw', fun _ h => h⟩
  | cons item rest ih =>
    obtain ⟨digest, off⟩ := item
    simp only [fixedAppendLoop] at hw'
    split at hw'
    · exact ⟨w', hw', fun _ h => h⟩
    · rename_i sz hl
      split at hw'
      · exact ⟨w', hw', fun _ h => h⟩
      · rename_i env' ha
        have hne : digest ≠ d := by
          intro he; rw [he, hnone] at hl; exact Option.noConfusion hl
        obtain ⟨hk, _, w0, hw0, hdw⟩ :=
          fixed_writer_append_chunk_ok env wid off sz digest env' ha
        have hnone' : env'.lookup_chunk d = none := by
          unfold BackupEnv.lookup_chunk at hnone ⊢
          rw [hk]; exact hnone
        obtain ⟨w1, hw1, himp1⟩ := ih env' hnone' w' hw'
        rw [hdw] at hw1
        by_cases hww : wid' = wid
        · subst hww
          rw [alookup_ainsert_self] at hw1
          refine ⟨w0, hw0, fun slot' hmem => ?_⟩
          have := himp1 slot' hmem
          rw [← Option.some_inj.mp hw1] at this
          simp only [List.mem_append, List.mem_singleton, Prod.mk.injEq] at this
          rcases this with h | ⟨_, h⟩
          · exact h
          · exact absurd h.symm hne
        · rw [alookup_ainsert_ne wid wid' _ _ hww] at hw1
          exact ⟨w1, hw1, himp1⟩

theorem dynamicAppendLoop_success_order (wid : Nat) (items : List (Digest × Nat))
    (env : BackupEnv) (hs : (dynamicAppendLoop env wid items).1 = none)
    (w : DynamicWriterState) (hw : alookup wid env.dynamic_writers = some w) :
    ∃ w', alookup wid (dynamicAppendLoop env wid items).2.dynamic_writers = some w' ∧
      w'.index = w.index ++ items.map (fun p => (p.2, p.1)) := by
  induction items generalizing env w with
  | nil => exact ⟨w, hw, by simp⟩
  | cons item rest ih =>
    obtain ⟨digest, off⟩ := item
    simp only [dynamicAppendLoop] at hs ⊢
    split at hs
    · exact absurd hs (by simp)
    · rename_i sz hl
      split at hs
      · exact absurd hs (by simp)
      · rename_i env' ha
        obtain ⟨_, _, w0, hw0, hdw⟩ :=
          dynamic_writer_append_chunk_ok env wid off sz digest env' ha
        have hww : w0 = w := by
          rw [hw0] at hw; exact Option.some_inj.mp hw
        rw [hww] at hdw
        have hw' : alookup wid env'.dynamic_writers =
            some { w with index := w.index ++ [(off, digest)], offset := off,
                          chunk_count := w.chunk_count + 1 } := by
          rw [hdw]; exact alookup_ainsert_self _ _ _
        obtain ⟨w', hfin, hidx⟩ := ih env' hs _ hw'
        refine ⟨w', hfin, ?_⟩
        rw [hidx]
        simp

theorem fixedAppendLoop_success_order (wid : Nat) (items : List (Digest × Nat))
    (env : BackupEnv) (hs : (fixedAppendLoop env wid items).1 = none)
    (w : FixedWriterState) (hw : alookup wid env.fixed_writers = some w) :
    ∃ w', alookup wid (fixedAppendLoop env wid items).2.fixed_writers = some w' ∧
      w'.chunk_size = w.chunk_size ∧
      w'.slots = w.slots ++ items.map (fun p => (p.2 / w.chunk_size, p.1)) := by
  induction items generalizing env w with
  | nil => exact ⟨w, hw, rfl, by simp⟩
  | cons item rest ih =>
    obtain ⟨digest, off⟩ := item
    simp only [fixedAppendLoop] at hs ⊢
    split at hs
    · exact absurd hs (by simp)
    · rename_i sz hl
      split at hs
      · exact absurd hs (by simp)
      · rename_i env' ha
        obtain ⟨_, _, w0, hw0, hdw⟩ :=
          fixed_writer_append_chunk_ok env wid off sz digest env' ha
        have hww : w0 = w := by
          rw [hw0] at hw; exact Option.some_inj.mp hw
        rw [hww] at hdw
        have hw' : alookup wid env'.fixed_writers =
            some { w with slots := w.slots ++ [(off / w.chunk_size, digest)],
                          chunk_count := w.chunk_count + 1 } := by
          rw [hdw]; exact alookup_ainsert_self _ _ _
        obtain ⟨w', hfin, hcs, hslots⟩ := ih env' hs _ hw'
        refine ⟨w', hfin, hcs, ?_⟩
        rw [hslots]
        simp

/-! ## Claim theorems for the append handlers -/

/-- C1: for every `dynamic_append` or `fixed_append` call, every digest in the
digest-list must already be present in the session's known-chunks map; if a
digest is absent, the call fails with an error and that digest is not appended
to the writer (every `(offset, d)` entry of a writer after the call was
already there before it). -/
theorem C1_append_requires_known_chunk (env : BackupEnv) (wid : Nat)
    (ds : List Digest) (os : List Nat) (d : Digest)
    (hd : d ∈ ds) (hnone : env.lookup_chunk d = none) :
    ((dynamic_append env wid ds os).1.isSome ∧
      ∀ wid' w', alookup wid' (dynamic_append env wid ds os).2.dynamic_writers = some w' →
        ∃ w, alookup wid' env.dynamic_writers = some w ∧
          ∀ off, (off, d) ∈ w'.index → (off, d) ∈ w.index) ∧
    ((fixed_append env wid ds os).1.isSome ∧
      ∀ wid' w', alookup wid' (fixed_append env wid ds os).2.fixed_writers = some w' →
        ∃ w, alookup wid' env.fixed_writers = some w ∧
          ∀ slot, (slot, d) ∈ w'.slots → (slot, d) ∈ w.slots) := by
  unfold dynamic_append fixed_append
  by_cases hlen : os.length ≠ ds.length
  · rw [if_pos hlen, if_pos hlen]
    exact ⟨⟨rfl, fun _ w' hw' => ⟨w', hw', fun _ h => h⟩⟩,
           ⟨rfl, fun _ w' hw' => ⟨w', hw', fun _ h => h⟩⟩⟩
  · rw [if_neg hlen, if_neg hlen]
    push_neg at hlen
    have hdz : d ∈ (ds.zip os).map Prod.fst := by
      rw [List.map_fst_zip ds os (le_of_eq hlen.symm)]
      exact hd
    exact ⟨⟨dynamicAppendLoop_missing_digest env wid (ds.zip os) d hdz hnone,
            fun wid' w' hw' =>
              dynamicAppendLoop_no_unknown wid (ds.zip os) env d hnone wid' w' hw'⟩,
           ⟨fixedAppendLoop_missing_digest env wid (ds.zip os) d hdz hnone,
            fun wid' w' hw' =>
              fixedAppendLoop_no_unknown wid (ds.zip os) env d hnone wid' w' hw'⟩⟩

/-- Witness for C1 at a concrete input: digest 7 is not in the (empty)
known-chunks map, so appending it fails. -/
theorem C1_append_requires_known_chunk_witness :
    (dynamic_append ⟨[], [], [], 1, none⟩ 1 [7] [4]).1.isSome ∧
    (fixed_append ⟨[], [], [], 1, none⟩ 1 [7] [4]).1.isSome :=
  ⟨(C1_append_requires_known_chunk ⟨[], [], [], 1, none⟩ 1 [7] [4] 7
      (by decide) (by decide)).1.1,
   (C1_append_requires_known_chunk ⟨[], [], [], 1, none⟩ 1 [7] [4] 7
      (by decide) (by decide)).2.1⟩

/-- C5 (amended): lists of different lengths are rejected and the session is
left unchanged; on success the accepted entries have been appended to the
writer in list order (empty lists are accepted as a no-op, see the
counterexample). -/
theorem C5_append_lists (env : BackupEnv) (wid : Nat)
    (ds : List Digest) (os : List Nat) :
    (os.length ≠ ds.length →
      dynamic_append env wid ds os =
        (some "offset list has wrong length".data, env) ∧
      fixed_append env wid ds os =
        (some "offset list has wrong length".data, env)) ∧
    ((dynamic_append env wid ds os).1 = none →
      ∀ w, alookup wid env.dynamic_writers = some w →
        ∃ w', alookup wid (dynamic_append env wid ds os).2.dynamic_writers = some w' ∧
          w'.index = w.index ++ os.zip ds) ∧
    ((fixed_append env wid ds os).1 = none →
      ∀ w, alookup wid env.fixed_writers = some w →
        ∃ w', alookup wid (fixed_append env wid ds os).2.fixed_writers = some w' ∧
          w'.slots = w.slots ++ (os.zip ds).map (fun p => (p.1 / w.chunk_size, p.2))) := by
  refine ⟨fun hlen => ?_, fun hs w hw => ?_, fun hs w hw => ?_⟩
  · unfold dynamic_append fixed_append
    rw [if_pos hlen, if_pos hlen]
    exact ⟨rfl, rfl⟩
  · unfold dynamic_append at hs ⊢
    by_cases hlen : os.length ≠ ds.length
    · rw [if_pos hlen] at hs; exact absurd hs (by simp)
    · rw [if_neg hlen] at hs ⊢
      push_neg at hlen
      obtain ⟨w', hfin, hidx⟩ := dynamicAppendLoop_success_order wid (ds.zip os) env hs w hw
      refine ⟨w', hfin, ?_⟩
      rw [hidx]
      congr 1
      rw [← List.zip_swap ds os]
      rfl
  · unfold fixed_append at hs ⊢
    by_cases hlen : os.length ≠ ds.length
    · rw [if_pos hlen] at hs; exact absurd hs (by simp)
    · rw [if_neg hlen] at hs ⊢
      push_neg at hlen
      obtain ⟨w', hfin, _, hslots⟩ := fixedAppendLoop_success_order wid (ds.zip os) env hs w hw
      refine ⟨w', hfin, ?_⟩
      rw [hslots]
      congr 1
      rw [← List.zip_swap ds os, List.map_map]
      rfl

/-- C5 counterexample: the claim says a call with empty digest/offset lists
fails, but the code has no emptiness check — both appends accept empty lists
and succeed as a no-op. -/
theorem C5_append_lists_counterexample :
    (dynamic_append ⟨[], [], [], 1, none⟩ 1 [] []).1 = none ∧
    (fixed_append ⟨[], [], [], 1, none⟩ 1 [] []).1 = none := by
  decide

/-- Witness for C5 at a concrete input: a successful one-chunk append puts
the `(offset, digest)` entry at the end of the writer's index. -/
theorem C5_append_lists_witness :
    ∃ w', alookup 1 (dynamic_append
        ⟨[(7, 5)], [(1, ⟨"a.didx".data, [], 0, 0⟩)], [], 2, none⟩
        1 [7] [4]).2.dynamic_writers = some w' ∧
      w'.index = DynamicWriterState.index ⟨"a.didx".data, [], 0, 0⟩ ++ [4].zip [7] :=
  (C5_append_lists ⟨[(7, 5)], [(1, ⟨"a.didx".data, [], 0, 0⟩)], [], 2, none⟩
      1 [7] [4]).2.1 (by decide) ⟨"a.didx".data, [], 0, 0⟩ (by decide)

/-! ## Claim theorems for opening a session -/

/-- C2: when the group scan reports a last backup with timestamp `t1` and the
new session's timestamp `t2` satisfies `t2 ≤ t1`, the upgrade fails with the
time-monotonicity error and the snapshot directory is not created (the
filesystem is unchanged); when `t2 > t1` or no previous backup was seen, the
time check passes (the call never returns the time-monotonicity error). -/
theorem C2_time_not_monotonic (fs : List SnapshotPath) (scan : Option Int)
    (ty id : Str) (t2 : Int) (ls : Option PrevSnapshot) :
    (∀ t1, scan = some t1 → t2 ≤ t1 →
      upgrade_to_backup_protocol fs scan ty id t2 ls =
        (.error "backup timestamp is older than last backup.".data, fs)) ∧
    ((scan = none ∨ ∃ t1, scan = some t1 ∧ t1 < t2) →
      (upgrade_to_backup_protocol fs scan ty id t2 ls).1 ≠
        .error "backup timestamp is older than last backup.".data) := by
  constructor
  · intro t1 hscan hle
    subst hscan
    have hfail : timeCheckFails (some t1) t2 = true := by
      unfold timeCheckFails; exact decide_eq_true hle
    unfold upgrade_to_backup_protocol
    rw [hfail, if_pos rfl]
  · intro hpass
    have hok : timeCheckFails scan t2 = false := by
      unfold timeCheckFails
      rcases hpass with h | ⟨t1, h, hlt⟩
      · rw [h]
      · rw [h]
        exact decide_eq_false (not_le.mpr hlt)
    unfold upgrade_to_backup_protocol
    rw [hok]
    simp only [Bool.false_eq_true, if_false]
    unfold create_backup_dir
    by_cases hmem : (ty, id, t2) ∈ fs
    · rw [if_pos hmem]
      intro h
      injection h with h
      exact absurd h (by decide)
    · rw [if_neg hmem]
      simp

/-- Witness for C2 at a concrete input: timestamp 5 after a last backup at
timestamp 5 is rejected. -/
theorem C2_time_not_monotonic_witness :
    upgrade_to_backup_protocol [] (some 5) "host".data "ab".data 5 none =
      (.error "backup timestamp is older than last backup.".data, []) :=
  (C2_time_not_monotonic [] (some 5) "host".data "ab".data 5 none).1
    5 rfl (by decide)

/-- C3 (amended): when the target snapshot directory already exists the
upgrade fails and no session is started, and the filesystem is unchanged;
the error is `SnapshotExists` ("backup directorty already exists.") when the
monotonic-timestamp check passed (the scan saw no backup at or after `t2`,
e.g. because it failed or raced), and `TimeNotMonotonic` otherwise. -/
theorem C3_snapshot_exists (fs : List SnapshotPath) (scan : Option Int)
    (ty id : Str) (t2 : Int) (ls : Option PrevSnapshot)
    (hmem : (ty, id, t2) ∈ fs) :
    (∃ e, (upgrade_to_backup_protocol fs scan ty id t2 ls).1 = .error e) ∧
    (upgrade_to_backup_protocol fs scan ty id t2 ls).2 = fs ∧
    ((scan = none ∨ ∃ t1, scan = some t1 ∧ t1 < t2) →
      (upgrade_to_backup_protocol fs scan ty id t2 ls).1 =
        .error "backup directorty already exists.".data) := by
  rcases hb : timeCheckFails scan t2 with _ | _
  · have heq : upgrade_to_backup_protocol fs scan ty id t2 ls =
        (.error "backup directorty already exists.".data, fs) := by
      unfold upgrade_to_backup_protocol
      rw [hb]
      simp only [Bool.false_eq_true, if_false]
      unfold create_backup_dir
      rw [if_pos hmem]
      simp
    exact ⟨⟨_, by rw [heq]⟩, by rw [heq], fun _ => by rw [heq]⟩
  · have heq : upgrade_to_backup_protocol fs scan ty id t2 ls =
        (.error "backup timestamp is older than last backup.".data, fs) := by
      unfold upgrade_to_backup_protocol
      rw [hb, if_pos rfl]
    refine ⟨⟨_, by rw [heq]⟩, by rw [heq], fun hpass => ?_⟩
    exfalso
    rcases hpass with h | ⟨t1, h, hlt⟩
    · subst h; simp [timeCheckFails] at hb
    · subst h
      simp [timeCheckFails] at hb
      exact absurd hb (not_le.mpr hlt)

/-- C3 counterexample: the claim says an attempt whose target directory
already exists fails with `SnapshotExists`, but when the last-backup scan saw
that snapshot, the monotonic-timestamp check fires first and the call fails
with the `TimeNotMonotonic` error instead. -/
theorem C3_snapshot_exists_counterexample :
    (("host".data, "ab".data, (5 : Int)) ∈
        [(("host".data, "ab".data, (5 : Int)) : SnapshotPath)]) ∧
    (upgrade_to_backup_protocol [("host".data, "ab".data, 5)] (some 5)
        "host".data "ab".data 5 none).1 ≠
      .error "backup directorty already exists.".data ∧
    (upgrade_to_backup_protocol [("host".data, "ab".data, 5)] (some 5)
        "host".data "ab".data 5 none).1 =
      .error "backup timestamp is older than last backup.".data := by
  refine ⟨by decide, ?_, ?_⟩
  · intro h
    injection h with h
    exact absurd h (by decide)
  · decide

/-- Witness for C3 at a concrete input: the directory exists and the scan
missed it (returned `none`), so the call fails with `SnapshotExists`. -/
theorem C3_snapshot_exists_witness :
    (∃ e, (upgrade_to_backup_protocol [("host".data, "ab".data, 5)] none
        "host".data "ab".data 5 none).1 = .error e) ∧
    (upgrade_to_backup_protocol [("host".data, "ab".data, 5)] none
        "host".data "ab".data 5 none).2 = [("host".data, "ab".data, 5)] ∧
    ((none = (none : Option Int) ∨ ∃ t1, (none : Option Int) = some t1 ∧ t1 < 5) →
      (upgrade_to_backup_protocol [("host".data, "ab".data, 5)] none
          "host".data "ab".data 5 none).1 =
        .error "backup directorty already exists.".data) :=
  C3_snapshot_exists [("host".data, "ab".data, 5)] none
    "host".data "ab".data 5 none (by decide)

/-- C8: every successful `create_fixed_index` call creates the fixed writer
with `chunk_size = 4 MiB` (4194304 bytes), regardless of the requested
archive size — the chunk size is not configurable per archive. -/
theorem C8_fixed_chunk_size (env : BackupEnv) (name : Str) (size wid : Nat)
    (env' : BackupEnv) (h : create_fixed_index env name size = .ok (wid, env')) :
    ∃ w, alookup wid env'.fixed_writers = some w ∧ w.chunk_size = 4194304 := by
  unfold create_fixed_index at h
  split at h
  · exact absurd h (by simp)
  · unfold BackupEnv.register_fixed_writer at h
    split at h
    · exact absurd h (by simp)
    · simp only [Except.ok.injEq, Prod.mk.injEq] at h
      obtain ⟨hwid, henv⟩ := h
      subst hwid
      subst henv
      exact ⟨_, alookup_ainsert_self _ _ _, rfl⟩

/-- Witness for C8 at a concrete input: creating `disk.fidx` with a 10 GiB
size still yields a writer with 4 MiB chunk size. -/
theorem C8_fixed_chunk_size_witness :
    ∃ w, alookup 1 (BackupEnv.fixed_writers
        ⟨[], [], ainsert 1 ⟨"disk.fidx".data, 10737418240, 4194304, [], 0⟩ [], 2, none⟩) =
      some w ∧ w.chunk_size = 4194304 :=
  C8_fixed_chunk_size ⟨[], [], [], 1, none⟩ "disk.fidx".data 10737418240 1
    ⟨[], [], ainsert 1 ⟨"disk.fidx".data, 10737418240, 4194304, [], 0⟩ [], 2, none⟩
    (by decide)

/-! ## Lemmas about the previous-index registration loops -/

theorem registerDynamicEntries_preserves (entries : List (Nat × Digest))
    (env : BackupEnv) (start : Nat) (d : Digest)
    (hd : d ∉ entries.map (·.2)) :
    alookup d (registerDynamicEntries env start entries).known_chunks =
      alookup d env.known_chunks := by
  induction entries generalizing env start with
  | nil => rfl
  | cons e rest ih =>
    obtain ⟨endOff, digest⟩ := e
    simp only [List.map_cons, List.mem_cons, not_or] at hd
    simp only [registerDynamicEntries]
    rw [ih _ _ hd.2]
    unfold BackupEnv.register_chunk
    exact alookup_ainsert_ne digest d _ _ hd.1

theorem registerDynamicEntries_registers (entries : List (Nat × Digest))
    (env : BackupEnv) (start : Nat)
    (hnd : (entries.map (·.2)).Nodup) (i : Nat) (hi : i < entries.length) :
    alookup ((entries.get ⟨i, hi⟩).2)
        (registerDynamicEntries env start entries).known_chunks =
      some (sizeCastU32 (entries.get ⟨i, hi⟩).1
        ((start :: entries.map (·.1)).get ⟨i, by simp; omega⟩)) := by
  induction entries generalizing env start i with
  | nil => exact absurd hi (by simp)
  | cons e rest ih =>
    obtain ⟨endOff, digest⟩ := e
    simp only [List.map_cons, List.nodup_cons] at hnd
    cases i with
    | zero =>
      simp only [List.get, registerDynamicEntries]
      rw [registerDynamicEntries_preserves rest _ _ _ hnd.1]
      unfold BackupEnv.register_chunk
      exact alookup_ainsert_self _ _ _
    | succ j =>
      simp only [List.get, registerDynamicEntries]
      exact ih _ _ hnd.2 j (by simpa using hi)

theorem registerFixedEntries_preserves (digests : List Digest)
    (env : BackupEnv) (index : FixedIndexFile) (pos : Nat) (d : Digest)
    (hd : d ∉ digests) :
    alookup d (registerFixedEntries env index pos digests).known_chunks =
      alookup d env.known_chunks := by
  induction digests generalizing env pos with
  | nil => rfl
  | cons digest rest ih =>
    simp only [List.mem_cons, not_or] at hd
    simp only [registerFixedEntries]
    rw [ih _ _ hd.2]
    unfold BackupEnv.register_chunk
    exact alookup_ainsert_ne digest d _ _ hd.1

theorem registerFixedEntries_registers (digests : List Digest)
    (env : BackupEnv) (index : FixedIndexFile) (pos : Nat)
    (hnd : digests.Nodup) (i : Nat) (hi : i < digests.length) :
    alookup (digests.get ⟨i, hi⟩)
        (registerFixedEntries env index pos digests).known_chunks =
      some (sizeCastU32
        (min ((pos + i) * index.chunk_size + index.chunk_size) index.size)
        ((pos + i) * index.chunk_size)) := by
  induction digests generalizing env pos i with
  | nil => exact absurd hi (by simp)
  | cons digest rest ih =>
    simp only [List.nodup_cons] at hnd
    cases i with
    | zero =>
      simp only [List.get, registerFixedEntries]
      rw [registerFixedEntries_preserves rest _ _ _ _ hnd.1]
      unfold BackupEnv.register_chunk
      simp only [Nat.add_zero]
      exact alookup_ainsert_self _ _ _
    | succ j =>
      simp only [List.get, registerFixedEntries]
      have hpj : pos + 1 + j = pos + (j + 1) := by omega
      have h2 := ih (BackupEnv.register_chunk env digest
          (sizeCastU32 (min (pos * index.chunk_size + index.chunk_size) index.size)
            (pos * index.chunk_size))) (pos + 1) hnd.2 j (by simpa using hi)
      rw [hpj] at h2
      exact h2

/-! ## Claim theorem for the previous-index downloads -/

/-- C4: a previous-index download with no previous snapshot, or whose archive
name is absent from the previous snapshot, succeeds with an empty body and
leaves known-chunks unchanged; otherwise it streams back the archive's digest
list and registers every `(digest, size)` entry of the index into
known-chunks (sizes per the `chunk_info` / last-chunk-truncation arithmetic
of the handlers; for distinct digests the registered size is exactly the
entry's size, and digests not in the archive keep their old entry). -/
theorem C4_download_previous_index (env : BackupEnv) (name : Str)
    (hdx : ".didx".data.isSuffixOf name) (namef : Str)
    (hfx : ".fidx".data.isSuffixOf namef) :
    (env.last_backup = none →
      dynamic_chunk_index env name = .ok (.empty, env) ∧
      fixed_chunk_index env namef = .ok (.empty, env)) ∧
    (∀ last, env.last_backup = some last →
      (alookup name last.didx = none →
        dynamic_chunk_index env name = .ok (.empty, env)) ∧
      (alookup namef last.fidx = none →
        fixed_chunk_index env namef = .ok (.empty, env)) ∧
      (∀ idx, alookup name last.didx = some idx →
        dynamic_chunk_index env name =
          .ok (.digestList (idx.entries.map (·.2)),
               registerDynamicEntries env 0 idx.entries) ∧
        (∀ d, d ∉ idx.entries.map (·.2) →
          alookup d (registerDynamicEntries env 0 idx.entries).known_chunks =
            alookup d env.known_chunks) ∧
        ((idx.entries.map (·.2)).Nodup →
          ∀ i (hi : i < idx.entries.length),
            alookup ((idx.entries.get ⟨i, hi⟩).2)
                (registerDynamicEntries env 0 idx.entries).known_chunks =
              some (sizeCastU32 (idx.entries.get ⟨i, hi⟩).1
                ((0 :: idx.entries.map (·.1)).get ⟨i, by simp; omega⟩)))) ∧
      (∀ idx, alookup namef last.fidx = some idx →
        fixed_chunk_index env namef =
          .ok (.digestList idx.digests, registerFixedEntries env idx 0 idx.digests) ∧
        (∀ d, d ∉ idx.digests →
          alookup d (registerFixedEntries env idx 0 idx.digests).known_chunks =
            alookup d env.known_chunks) ∧
        (idx.digests.Nodup →
          ∀ i (hi : i < idx.digests.length),
            alookup (idx.digests.get ⟨i, hi⟩)
                (registerFixedEntries env idx 0 idx.digests).known_chunks =
              some (sizeCastU32 (min (i * idx.chunk_size + idx.chunk_size) idx.size)
                (i * idx.chunk_size))))) := by
  constructor
  · intro hnone
    constructor
    · unfold dynamic_chunk_index
      rw [if_neg (by simp [hdx]), hnone]
    · unfold fixed_chunk_index
      rw [if_neg (by simp [hfx]), hnone]
  · intro last hlast
    refine ⟨fun habs => ?_, fun habs => ?_, fun idx hidx => ?_, fun idx hidx => ?_⟩
    · unfold dynamic_chunk_index
      rw [if_neg (by simp [hdx]), hlast]
      simp only [habs]
    · unfold fixed_chunk_index
      rw [if_neg (by simp [hfx]), hlast]
      simp only [habs]
    · refine ⟨?_, fun d hd => registerDynamicEntries_preserves _ _ _ _ hd,
        fun hnd i hi => registerDynamicEntries_registers _ _ _ hnd i hi⟩
      unfold dynamic_chunk_index
      rw [if_neg (by simp [hdx]), hlast]
      simp only [hidx]
    · refine ⟨?_, fun d hd => registerFixedEntries_preserves _ _ _ _ _ hd,
        fun hnd i hi => ?_⟩
      · unfold fixed_chunk_index
        rw [if_neg (by simp [hfx]), hlast]
        simp only [hidx]
      · have := registerFixedEntries_registers idx.digests env idx 0 hnd i hi
        simpa using this

/-- Witness for C4 at a concrete input: a previous snapshot with one
two-chunk `.didx` archive; downloading it returns the digest list and
registers the first digest with its size. -/
theorem C4_download_previous_index_witness :
    dynamic_chunk_index
        ⟨[], [], [], 1, some ⟨[("a.didx".data, ⟨[(3, 21), (10, 22)]⟩)], []⟩⟩
        "a.didx".data
      = .ok (.digestList [21, 22],
          registerDynamicEntries
            ⟨[], [], [], 1, some ⟨[("a.didx".data, ⟨[(3, 21), (10, 22)]⟩)], []⟩⟩
            0 [(3, 21), (10, 22)])
    ∧ alookup 21
        (registerDynamicEntries
          ⟨[], [], [], 1, some ⟨[("a.didx".data, ⟨[(3, 21), (10, 22)]⟩)], []⟩⟩
          0 [(3, 21), (10, 22)]).known_chunks
      = some (sizeCastU32 3 0) :=
  ⟨(((C4_download_previous_index
        ⟨[], [], [], 1, some ⟨[("a.didx".data, ⟨[(3, 21), (10, 22)]⟩)], []⟩⟩
        "a.didx".data (by decide) "b.fidx".data (by decide)).2
      ⟨[("a.didx".data, ⟨[(3, 21), (10, 22)]⟩)], []⟩ rfl).2.2.1
      ⟨[(3, 21), (10, 22)]⟩ rfl).1,
   (((C4_download_previous_index
        ⟨[], [], [], 1, some ⟨[("a.didx".data, ⟨[(3, 21), (10, 22)]⟩)], []⟩⟩
        "a.didx".data (by decide) "b.fidx".data (by decide)).2
      ⟨[("a.didx".data, ⟨[(3, 21), (10, 22)]⟩)], []⟩ rfl).2.2.1
      ⟨[(3, 21), (10, 22)]⟩ rfl).2.2 (by decide) 0 (by decide)⟩

/-! ## Lemmas for the group path parser -/

theorem dropLit_eq_some (p s r : Str) (h : dropLit p s = some r) :
    s = p ++ r := by
  induction p generalizing s with
  | nil =>
    simp only [dropLit] at h
    simp [Option.some_inj.mp h]
  | cons c p' ih =>
    match s with
    | [] => exact absurd h (by simp [dropLit])
    | c' :: s' =>
      simp only [dropLit] at h
      split at h
      · rename_i hc
        subst hc
        rw [ih s' h]
        rfl
      · exact absurd h (by simp)

theorem dropLit_self (p r : Str) : dropLit p (p ++ r) = some r := by
  induction p with
  | nil => rfl
  | cons c p' ih => simp [dropLit, ih]

theorem typeAlt_sound (s t rest : Str) (h : typeAlt s = some (t, rest)) :
    t ∈ backupTypes ∧ s = t ++ rest := by
  unfold typeAlt at h
  split at h
  · rename_i hd
    obtain ⟨ht, hr⟩ := Prod.mk.injEq .. ▸ Option.some_inj.mp h
    subst ht; subst hr
    exact ⟨by simp [backupTypes], dropLit_eq_some _ _ _ hd⟩
  · split at h
    · rename_i hd
      obtain ⟨ht, hr⟩ := Prod.mk.injEq .. ▸ Option.some_inj.mp h
      subst ht; subst hr
      exact ⟨by simp [backupTypes], dropLit_eq_some _ _ _ hd⟩
    · split at h
      · rename_i hd
        obtain ⟨ht, hr⟩ := Prod.mk.injEq .. ▸ Option.some_inj.mp h
        subst ht; subst hr
        exact ⟨by simp [backupTypes], dropLit_eq_some _ _ _ hd⟩
      · exact absurd h (by simp)

theorem groupMatchAt_sound (s t i : Str) (h : groupMatchAt s = some (t, i)) :
    t ∈ backupTypes ∧ idAccept i ∧ s = t ++ '/' :: i := by
  unfold groupMatchAt at h
  split at h
  · rename_i t' rest2 hta
    split at h
    · rename_i hid
      simp only [Option.some_inj, Prod.mk.injEq] at h
      obtain ⟨rfl, rfl⟩ := h
      exact ⟨(typeAlt_sound _ _ _ hta).1, hid, (typeAlt_sound _ _ _ hta).2⟩
    · exact absurd h (by simp)
  · exact absurd h (by simp)

theorem typeAlt_exact (t : Str) (ht : t ∈ backupTypes) (rest : Str) :
    typeAlt (t ++ rest) = some (t, rest) := by
  simp only [backupTypes, List.mem_cons, List.not_mem_nil, or_false] at ht
  rcases ht with h | h | h <;> subst h
  · unfold typeAlt
    rw [dropLit_self]
  · unfold typeAlt
    rw [show dropLit "host".data ("vm".data ++ rest) = none from rfl]
    rw [dropLit_self]
  · unfold typeAlt
    rw [show dropLit "host".data ("ct".data ++ rest) = none from rfl]
    rw [show dropLit "vm".data ("ct".data ++ rest) = none from rfl]
    rw [dropLit_self]

theorem groupMatchAt_exact (t i : Str) (ht : t ∈ backupTypes)
    (hi : idAccept i) : groupMatchAt (t ++ '/' :: i) = some (t, i) := by
  unfold groupMatchAt
  rw [typeAlt_exact t ht ('/' :: i)]
  simp [hi]

theorem groupRegexFind_cons (c : Char) (rest : Str) :
    groupRegexFind (c :: rest) =
      match groupMatchAt (c :: rest) with
      | some r => some r
      | none => groupRegexFind rest := rfl

theorem groupRegexFind_exact (t i : Str) (hmem : t ∈ backupTypes)
    (hid : idAccept i) : groupRegexFind (t ++ '/' :: i) = some (t, i) := by
  have hm := groupMatchAt_exact t i hmem hid
  simp only [backupTypes, List.mem_cons, List.not_mem_nil, or_false] at hmem
  rcases hmem with h | h | h <;> subst h
  · show groupRegexFind ('h' :: 'o' :: 's' :: 't' :: '/' :: i) =
      some ("host".data, i)
    rw [groupRegexFind_cons]
    rw [show groupMatchAt ('h' :: 'o' :: 's' :: 't' :: '/' :: i) =
      some ("host".data, i) from hm]
  · show groupRegexFind ('v' :: 'm' :: '/' :: i) = some ("vm".data, i)
    rw [groupRegexFind_cons]
    rw [show groupMatchAt ('v' :: 'm' :: '/' :: i) =
      some ("vm".data, i) from hm]
  · show groupRegexFind ('c' :: 't' :: '/' :: i) = some ("ct".data, i)
    rw [groupRegexFind_cons]
    rw [show groupMatchAt ('c' :: 't' :: '/' :: i) =
      some ("ct".data, i) from hm]

theorem groupRegexFind_of_suffix (pre s : Str)
    (h : (groupMatchAt s).isSome) : (groupRegexFind (pre ++ s)).isSome := by
  induction pre with
  | nil =>
    rw [List.nil_append]
    cases s with
    | nil => exact absurd h (by decide)
    | cons c rest =>
      rcases hm : groupMatchAt (c :: rest) with _ | r
      · rw [hm] at h; exact absurd h (by simp)
      · rw [groupRegexFind_cons, hm]
        rfl
  | cons c pre' ih =>
    rw [List.cons_append, groupRegexFind_cons]
    rcases hm : groupMatchAt (c :: (pre' ++ s)) with _ | r
    · exact ih
    · rfl

theorem groupRegexFind_sound (s : Str) (t i : Str)
    (h : groupRegexFind s = some (t, i)) :
    ∃ pre, t ∈ backupTypes ∧ idAccept i ∧ s = pre ++ t ++ '/' :: i := by
  induction s with
  | nil =>
    rw [show groupRegexFind [] = none from rfl] at h
    exact absurd h (by simp)
  | cons c rest ih =>
    rw [groupRegexFind_cons] at h
    rcases hm : groupMatchAt (c :: rest) with _ | r
    · rw [hm] at h
      obtain ⟨pre, hmem, hid, hs⟩ := ih h
      exact ⟨c :: pre, hmem, hid, by rw [List.cons_append, hs]; rfl⟩
    · rw [hm] at h
      simp only [Option.some_inj] at h
      subst h
      obtain ⟨hmem, hid, hs⟩ := groupMatchAt_sound _ _ _ hm
      exact ⟨[], hmem, hid, by simpa using hs⟩

/-! ## Claim theorem for the group path parser -/

/-- C7 (amended): `BackupGroup.parse path` succeeds exactly when some suffix
of `path` has the form `<type>/<id>` with `type ∈ {host, vm, ct}` and `id`
matching `[A-Za-z0-9][A-Za-z0-9_-]+` — the `GROUP_PATH_REGEX` is anchored
only at the end, so an arbitrary prefix is tolerated; on a path that is
exactly `<type>/<id>`, the parsed group's `backup_type` and `backup_id` are
those two components. -/
theorem C7_backup_group_parse (path : Str) :
    ((∃ g, BackupGroup.parse path = .ok g) ↔
      ∃ pre t i, t ∈ backupTypes ∧ idAccept i ∧ path = pre ++ t ++ '/' :: i) ∧
    (∀ t i, t ∈ backupTypes → idAccept i →
      BackupGroup.parse (t ++ '/' :: i) = .ok ⟨t, i⟩) := by
  constructor
  · constructor
    · rintro ⟨g, hg⟩
      unfold BackupGroup.parse at hg
      rcases hf : groupRegexFind path with _ | r
      · rw [hf] at hg; exact absurd hg (by simp)
      · obtain ⟨pre, h1, h2, h3⟩ := groupRegexFind_sound path r.1 r.2 (by rw [hf])
        exact ⟨pre, r.1, r.2, h1, h2, h3⟩
    · rintro ⟨pre, t, i, hmem, hid, hpath⟩
      have hat : (groupMatchAt (t ++ '/' :: i)).isSome := by
        rw [groupMatchAt_exact t i hmem hid]; rfl
      have hsome := groupRegexFind_of_suffix pre (t ++ '/' :: i) hat
      rw [show pre ++ (t ++ '/' :: i) = path from by rw [hpath]; simp] at hsome
      unfold BackupGroup.parse
      rcases hf : groupRegexFind path with _ | r
      · rw [hf] at hsome; exact absurd hsome (by simp)
      · obtain ⟨t', i'⟩ := r
        exact ⟨⟨t', i'⟩, rfl⟩
  · intro t i hmem hid
    unfold BackupGroup.parse
    rw [groupRegexFind_exact t i hmem hid]

/-- Witness for C7 at a concrete input: `host/ab` parses to the group
`(host, ab)`. -/
theorem C7_backup_group_parse_witness :
    BackupGroup.parse ("host".data ++ '/' :: "ab".data) =
      .ok ⟨"host".data, "ab".data⟩ :=
  (C7_backup_group_parse ("host".data ++ '/' :: "ab".data)).2
    "host".data "ab".data (by decide) (by decide)

/-- C7 counterexample: the claim requires `parse` to fail on every string
that is not exactly `<type>/<id>`, but `GROUP_PATH_REGEX` is unanchored at
the start: `xvm/ab` parses successfully (capturing `vm`/`ab`) even though no
backup type is a prefix of it. -/
theorem C7_backup_group_parse_counterexample :
    BackupGroup.parse "xvm/ab".data = .ok ⟨"vm".data, "ab".data⟩ ∧
    typeAlt "xvm/ab".data = none := by
  constructor <;> rfl

/-! ## Lemmas for the repository URL round trip -/

theorem takeWhile_append_stop (p : Char → Bool) (l : Str) (c : Char) (r : Str)
    (hl : l.all p) (hc : p c = false) :
    (l ++ c :: r).takeWhile p = l ∧ (l ++ c :: r).dropWhile p = c :: r := by
  induction l with
  | nil => simp [List.takeWhile, List.dropWhile, hc]
  | cons x xs ih =>
    simp only [List.all_cons, Bool.and_eq_true] at hl
    have := ih hl.2
    simp [List.takeWhile, List.dropWhile, hl.1, this.1, this.2]

theorem hostColonStore_exact (h st : Str) (hh : h ≠ []) (hha : h.all isHostChar)
    (hst : st ≠ []) (hsta : st.all isWordChar) :
    hostColonStore (h ++ ':' :: st) = some (h, st) := by
  obtain ⟨ht, hd⟩ := takeWhile_append_stop isHostChar h ':' st hha (by decide)
  unfold hostColonStore
  rw [hd]
  simp [ht, hh, hst, hsta]

theorem hostColonStore_none_of_word (s : Str) (hs : s.all isWordChar) :
    hostColonStore s = none := by
  unfold hostColonStore
  split
  · rename_i st heq
    exfalso
    have hmem : ':' ∈ s := by
      have hsub : s.dropWhile isHostChar <:+ s := List.dropWhile_suffix _
      exact hsub.subset (by rw [heq]; exact List.mem_cons_self _ _)
    have h2 : isWordChar ':' = true := by
      rw [List.all_eq_true] at hs
      exact hs ':' hmem
    exact absurd h2 (by decide)
  · rfl

theorem atSplits_nil_of_no_at (s : Str) (h : s.all (· ≠ '@')) :
    atSplits s = [] := by
  induction s with
  | nil => rfl
  | cons c rest ih =>
    simp only [List.all_cons, Bool.and_eq_true] at h
    have hc : c ≠ '@' := by simpa using h.1
    simp [atSplits, hc, ih h.2]

theorem atSplits_last (u r : Str) (hr : r.all (· ≠ '@')) :
    ∃ pre, atSplits (u ++ '@' :: r) = pre ++ [(u, r)] := by
  induction u with
  | nil =>
    refine ⟨[], ?_⟩
    simp [atSplits, atSplits_nil_of_no_at r hr]
  | cons c u' ih =>
    obtain ⟨pre', hpre'⟩ := ih
    by_cases hc : c = '@'
    · subst hc
      refine ⟨([], u' ++ '@' :: r) :: pre'.map (fun p => ('@' :: p.1, p.2)), ?_⟩
      simp [atSplits, hpre']
    · refine ⟨pre'.map (fun p => (c :: p.1, p.2)), ?_⟩
      simp [atSplits, hc, hpre']

theorem no_at_of_host (h : Str) (hh : h.all isHostChar) : h.all (· ≠ '@') := by
  rw [List.all_eq_true] at hh ⊢
  intro c hc
  have := hh c hc
  revert this
  unfold isHostChar isWordChar isAlnumChar
  rcases Decidable.em (c = '@') with he | he
  · subst he; decide
  · intro _; simpa using he

theorem no_at_of_word (s : Str) (hs : s.all isWordChar) : s.all (· ≠ '@') := by
  rw [List.all_eq_true] at hs ⊢
  intro c hc
  have := hs c hc
  revert this
  unfold isWordChar isAlnumChar
  rcases Decidable.em (c = '@') with he | he
  · subst he; decide
  · intro _; simpa using he

theorem all_ne_at_append (a b : Str) (ha : a.all (· ≠ '@'))
    (hb : b.all (· ≠ '@')) : (a ++ b).all (· ≠ '@') := by
  simp only [List.all_append, Bool.and_eq_true]
  exact ⟨ha, hb⟩

/-! ## Claim theorem for the repository URL round trip -/

theorem from_str_user_case (u hd store : Str) (hune : u ≠ [])
    (hua : u.all isUserChar) (hhdne : hd ≠ []) (hhda : hd.all isHostChar)
    (hstne : store ≠ []) (hsta : store.all isWordChar) :
    BackupRepository.from_str (u ++ '@' :: (hd ++ ':' :: store)) =
      .ok ⟨some u, some hd, store⟩ := by
  unfold BackupRepository.from_str
  have hrestna : (hd ++ ':' :: store).all (· ≠ '@') := by
    refine all_ne_at_append hd (':' :: store) (no_at_of_host hd hhda) ?_
    simp only [List.all_cons, Bool.and_eq_true]
    exact ⟨by decide, no_at_of_word store hsta⟩
  obtain ⟨pre, hsplit⟩ := atSplits_last u (hd ++ ':' :: store) hrestna
  rw [hsplit, List.reverse_append, List.reverse_singleton]
  simp only [List.singleton_append, firstSome]
  rw [if_pos ⟨hune, hua⟩,
    hostColonStore_exact hd store hhdne hhda hstne hsta]
  rfl

/-- C10: for every `BackupRepository` whose components match the URL grammar
(user in `[\w@]+` or absent, host in `[\w\-_.]+` or absent, store in `\w+`),
formatting with `Display` and re-parsing with `from_str` succeeds and
preserves the `user()`, `host()` and `store()` accessor values (absent user
and host read as `root@pam` / `localhost`). -/
theorem C10_repository_roundtrip (user host : Option Str) (store : Str)
    (huser : ∀ u, user = some u → u ≠ [] ∧ u.all isUserChar)
    (hhost : ∀ h, host = some h → h ≠ [] ∧ h.all isHostChar)
    (hstore : store ≠ [] ∧ store.all isWordChar) :
    ∃ r', BackupRepository.from_str
        (BackupRepository.display ⟨user, host, store⟩) = .ok r' ∧
      r'.user' = BackupRepository.user' ⟨user, host, store⟩ ∧
      r'.host' = BackupRepository.host' ⟨user, host, store⟩ ∧
      r'.store' = BackupRepository.store' ⟨user, host, store⟩ := by
  have hstna : store.all (· ≠ '@') := no_at_of_word store hstore.2
  rcases user with _ | u
  · rcases host with _ | h
    · -- bare store
      refine ⟨⟨none, none, store⟩, ?_, rfl, rfl, rfl⟩
      unfold BackupRepository.display BackupRepository.from_str
      simp only
      rw [atSplits_nil_of_no_at store hstna]
      simp only [List.reverse_nil, firstSome]
      rw [hostColonStore_none_of_word store hstore.2]
      simp [hstore.1, hstore.2]
    · -- host only
      obtain ⟨hhne, hha⟩ := hhost h rfl
      refine ⟨⟨none, some h, store⟩, ?_, rfl, rfl, rfl⟩
      unfold BackupRepository.display BackupRepository.from_str
      simp only
      have hna : (h ++ ':' :: store).all (· ≠ '@') := by
        refine all_ne_at_append h (':' :: store) (no_at_of_host h hha) ?_
        simp only [List.all_cons, Bool.and_eq_true]
        exact ⟨by decide, hstna⟩
      rw [atSplits_nil_of_no_at _ hna]
      simp only [List.reverse_nil, firstSome]
      rw [hostColonStore_exact h store hhne hha hstore.1 hstore.2]
  · -- user present: the display uses the defaulted host accessor
    obtain ⟨hune, hua⟩ := huser u rfl
    rcases host with _ | h
    · refine ⟨⟨some u, some "localhost".data, store⟩, ?_, rfl, rfl, rfl⟩
      show BackupRepository.from_str
          (u ++ '@' :: ("localhost".data ++ ':' :: store)) = _
      exact from_str_user_case u "localhost".data store hune hua
        (by decide) (by decide) hstore.1 hstore.2
    · obtain ⟨hhne, hha⟩ := hhost h rfl
      refine ⟨⟨some u, some h, store⟩, ?_, rfl, rfl, rfl⟩
      show BackupRepository.from_str (u ++ '@' :: (h ++ ':' :: store)) = _
      exact from_str_user_case u h store hune hua hhne hha hstore.1 hstore.2

/-- Witness for C10 at a concrete input: `user@pam` / no host / store `tank`
prints as `user@pam@localhost:tank` and parses back with the same accessor
values. -/
theorem C10_repository_roundtrip_witness :
    ∃ r', BackupRepository.from_str
        (BackupRepository.display ⟨some "user@pam".data, none, "tank".data⟩) =
          .ok r' ∧
      r'.user' = BackupRepository.user'
        ⟨some "user@pam".data, none, "tank".data⟩ ∧
      r'.host' = BackupRepository.host'
        ⟨some "user@pam".data, none, "tank".data⟩ ∧
      r'.store' = BackupRepository.store'
        ⟨some "user@pam".data, none, "tank".data⟩ :=
  C10_repository_roundtrip (some "user@pam".data) none "tank".data
    (fun u hu => by
      simp only [Option.some_inj] at hu
      subst hu
      exact ⟨by decide, by decide⟩)
    (fun h hh => Option.noConfusion hh)
    ⟨by decide, by decide⟩

/-! ## Calendar lemmas -/

theorem hinnantBounds (doe d1 d2 d3 yoe y4 y100 : Int)
    (h0 : 0 ≤ doe) (h1 : doe ≤ 146096)
    (hd1 : d1 = doe / 1460) (hd2 : d2 = doe / 36524) (hd3 : d3 = doe / 146096)
    (hyoe : yoe = (doe - d1 + d2 - d3) / 365)
    (hy4 : y4 = yoe / 4) (hy100 : y100 = yoe / 100) :
    0 ≤ yoe ∧ yoe ≤ 399 ∧ 0 ≤ doe - (365*yoe + y4 - y100) ∧
      doe - (365*yoe + y4 - y100) ≤ 365 := by
  have hd2a : 0 ≤ d2 := by omega
  have hd2b : d2 ≤ 4 := by omega
  have hd3r : d3 = 0 ∨ d3 = 1 := by omega
  have h100a : 0 ≤ y100 := by omega
  have h100b : y100 ≤ 3 := by omega
  rcases hd3r with h | h <;>
    (interval_cases d2 <;> interval_cases y100 <;> omega)

theorem daysFromCivil_civilFromDays (z : Int) :
    daysFromCivil (civilFromDays z).1 (civilFromDays z).2.1
      (civilFromDays z).2.2 = z := by
  have hb := hinnantBounds ((z + 719468) % 146097)
    (((z + 719468) % 146097) / 1460) (((z + 719468) % 146097) / 36524)
    (((z + 719468) % 146097) / 146096)
    ((((z + 719468) % 146097) - ((z + 719468) % 146097) / 1460 +
      ((z + 719468) % 146097) / 36524 - ((z + 719468) % 146097) / 146096) / 365)
    (((((z + 719468) % 146097) - ((z + 719468) % 146097) / 1460 +
      ((z + 719468) % 146097) / 36524 - ((z + 719468) % 146097) / 146096) / 365) / 4)
    (((((z + 719468) % 146097) - ((z + 719468) % 146097) / 1460 +
      ((z + 719468) % 146097) / 36524 - ((z + 719468) % 146097) / 146096) / 365) / 100)
    (by omega) (by omega) rfl rfl rfl rfl rfl rfl
  simp only [civilFromDays, daysFromCivil]
  set n : Int := z + 719468 with hn
  set era : Int := n / 146097 with hera
  set doe : Int := n % 146097 with hdoe
  set yoe : Int := (doe - doe / 1460 + doe / 36524 - doe / 146096) / 365 with hyoe
  set y4 : Int := yoe / 4 with hy4
  set y100 : Int := yoe / 100 with hy100
  set doy : Int := doe - (365 * yoe + y4 - y100) with hdoy
  set mp : Int := (5 * doy + 2) / 153 with hmp
  set q5 : Int := (153 * mp + 2) / 5 with hq5
  set d : Int := doy - q5 + 1 with hd
  set m : Int := mp + (if mp < 10 then 3 else -9) with hm
  set y : Int := yoe + era * 400 + (if m ≤ 2 then 1 else 0) with hy
  obtain ⟨hb1, hb2, hb3, hb4⟩ := hb
  have hmpb : 0 ≤ mp ∧ mp ≤ 11 := by omega
  have hmcase : (mp < 10 ∧ m = mp + 3) ∨ (10 ≤ mp ∧ m = mp - 9) := by
    rcases lt_or_le mp 10 with h | h
    · exact Or.inl ⟨h, by rw [hm, if_pos h]⟩
    · exact Or.inr ⟨h, by rw [hm, if_neg (by omega)]; ring⟩
  have hycase : (m ≤ 2 ∧ y = yoe + era * 400 + 1) ∨ (2 < m ∧ y = yoe + era * 400) := by
    rcases le_or_lt m 2 with h | h
    · exact Or.inl ⟨h, by rw [hy, if_pos h]⟩
    · exact Or.inr ⟨h, by rw [hy, if_neg (by omega)]; ring⟩
  set y' : Int := y - (if m ≤ 2 then 1 else 0) with hy'
  have hy'eq : y' = yoe + era * 400 := by
    rcases hycase with ⟨h, he⟩ | ⟨h, he⟩
    · rw [hy', if_pos h, he]; ring
    · rw [hy', if_neg (by omega), he]; ring
  set era' : Int := y' / 400 with hera'
  have hera'eq : era' = era := by
    rw [hera', hy'eq]; omega
  set yoe' : Int := y' - era' * 400 with hyoe'
  have hyoe'eq : yoe' = yoe := by rw [hyoe', hera'eq, hy'eq]; ring
  set mp' : Int := m + (if m > 2 then -3 else 9) with hmp'
  have hmp'eq : mp' = mp := by
    rcases hmcase with ⟨h, he⟩ | ⟨h, he⟩
    · rw [hmp', he, if_pos (by omega)]; ring
    · rw [hmp', he, if_neg (by omega)]; ring
  set doy' : Int := (153 * mp' + 2) / 5 + d - 1 with hdoy'
  have hdoy'eq : doy' = doy := by rw [hdoy', hmp'eq, hd, ← hq5]; ring
  rw [hyoe'eq, hdoy'eq, hera'eq]
  omega

theorem civilFromDays_range (z : Int) :
    1 ≤ (civilFromDays z).2.1 ∧ (civilFromDays z).2.1 ≤ 12 ∧
    1 ≤ (civilFromDays z).2.2 ∧ (civilFromDays z).2.2 ≤ 31 := by
  have hb := hinnantBounds ((z + 719468) % 146097)
    (((z + 719468) % 146097) / 1460) (((z + 719468) % 146097) / 36524)
    (((z + 719468) % 146097) / 146096)
    ((((z + 719468) % 146097) - ((z + 719468) % 146097) / 1460 +
      ((z + 719468) % 146097) / 36524 - ((z + 719468) % 146097) / 146096) / 365)
    (((((z + 719468) % 146097) - ((z + 719468) % 146097) / 1460 +
      ((z + 719468) % 146097) / 36524 - ((z + 719468) % 146097) / 146096) / 365) / 4)
    (((((z + 719468) % 146097) - ((z + 719468) % 146097) / 1460 +
      ((z + 719468) % 146097) / 36524 - ((z + 719468) % 146097) / 146096) / 365) / 100)
    (by omega) (by omega) rfl rfl rfl rfl rfl rfl
  simp only [civilFromDays]
  set n : Int := z + 719468 with hn
  set era : Int := n / 146097 with hera
  set doe : Int := n % 146097 with hdoe
  set yoe : Int := (doe - doe / 1460 + doe / 36524 - doe / 146096) / 365 with hyoe
  set y4 : Int := yoe / 4 with hy4
  set y100 : Int := yoe / 100 with hy100
  set doy : Int := doe - (365 * yoe + y4 - y100) with hdoy
  set mp : Int := (5 * doy + 2) / 153 with hmp
  set q5 : Int := (153 * mp + 2) / 5 with hq5
  obtain ⟨hb1, hb2, hb3, hb4⟩ := hb
  have hdb : 0 ≤ mp ∧ mp ≤ 11 ∧ 1 ≤ doy - q5 + 1 ∧ doy - q5 + 1 ≤ 31 := by
    omega
  refine ⟨?_, ?_, ?_, ?_⟩
  · split <;> omega
  · split <;> omega
  · exact hdb.2.2.1
  · exact hdb.2.2.2

theorem digit_roundtrip (n : Nat) (h : n ≤ 9) :
    digitVal (digitChar n) = n ∧ isDigitChar (digitChar n) = true := by
  interval_cases n <;> exact ⟨by decide, by decide⟩

theorem extractTime_pads (y mo dy h mi sec oh om : Nat)
    (hy : y ≤ 9999) (hmo : mo ≤ 99) (hdy : dy ≤ 99) (hh : h ≤ 99)
    (hmi : mi ≤ 99) (hs : sec ≤ 99) (hoh : oh ≤ 99) (hom : om ≤ 99) :
    extractTime (pad4 y ++ '-' :: pad2 mo ++ '-' :: pad2 dy ++ 'T' :: pad2 h ++
        ':' :: pad2 mi ++ ':' :: pad2 sec ++ '+' :: pad2 oh ++ ':' :: pad2 om) =
      some (y, mo, dy, h, mi, sec, oh, om) := by
  show extractTime
    [digitChar (y / 1000), digitChar (y / 100 % 10), digitChar (y / 10 % 10),
     digitChar (y % 10), '-', digitChar (mo / 10), digitChar (mo % 10), '-',
     digitChar (dy / 10), digitChar (dy % 10), 'T', digitChar (h / 10),
     digitChar (h % 10), ':', digitChar (mi / 10), digitChar (mi % 10), ':',
     digitChar (sec / 10), digitChar (sec % 10), '+', digitChar (oh / 10),
     digitChar (oh % 10), ':', digitChar (om / 10), digitChar (om % 10)] =
    some (y, mo, dy, h, mi, sec, oh, om)
  unfold extractTime
  have dv : ∀ n : Nat, n ≤ 9 →
      digitVal (digitChar n) = n ∧ isDigitChar (digitChar n) = true :=
    digit_roundtrip
  have h1 := dv (y / 1000) (by omega)
  have h2 := dv (y / 100 % 10) (by omega)
  have h3 := dv (y / 10 % 10) (by omega)
  have h4 := dv (y % 10) (by omega)
  have h5 := dv (mo / 10) (by omega)
  have h6 := dv (mo % 10) (by omega)
  have h7 := dv (dy / 10) (by omega)
  have h8 := dv (dy % 10) (by omega)
  have h9 := dv (h / 10) (by omega)
  have h10 := dv (h % 10) (by omega)
  have h11 := dv (mi / 10) (by omega)
  have h12 := dv (mi % 10) (by omega)
  have h13 := dv (sec / 10) (by omega)
  have h14 := dv (sec % 10) (by omega)
  have h15 := dv (oh / 10) (by omega)
  have h16 := dv (oh % 10) (by omega)
  have h17 := dv (om / 10) (by omega)
  have h18 := dv (om % 10) (by omega)
  simp only [List.all_cons, List.all_nil, Bool.and_true,
    h1.1, h1.2, h2.1, h2.2, h3.1, h3.2, h4.1, h4.2, h5.1, h5.2, h6.1, h6.2,
    h7.1, h7.2, h8.1, h8.2, h9.1, h9.2, h10.1, h10.2, h11.1, h11.2, h12.1,
    h12.2, h13.1, h13.2, h14.1, h14.2, h15.1, h15.2, h16.1, h16.2, h17.1,
    h17.2, h18.1, h18.2, Bool.and_self, if_true]
  congr 1
  refine congrArg₂ Prod.mk (by omega) ?_
  refine congrArg₂ Prod.mk (by omega) ?_
  refine congrArg₂ Prod.mk (by omega) ?_
  refine congrArg₂ Prod.mk (by omega) ?_
  refine congrArg₂ Prod.mk (by omega) ?_
  refine congrArg₂ Prod.mk (by omega) ?_
  exact congrArg₂ Prod.mk (by omega) (by omega)

theorem to_rfc3339_pads (dt : CivilDateTime) (hy0 : 0 ≤ dt.year)
    (hy1 : dt.year ≤ 9999) (hoff : 0 ≤ dt.offMinutes) :
    to_rfc3339 dt =
      pad4 dt.year.toNat ++ '-' :: pad2 dt.month.toNat ++
      '-' :: pad2 dt.day.toNat ++ 'T' :: pad2 dt.hour.toNat ++
      ':' :: pad2 dt.minute.toNat ++ ':' :: pad2 dt.second.toNat ++
      '+' :: pad2 (dt.offMinutes.natAbs / 60) ++
      ':' :: pad2 (dt.offMinutes.natAbs % 60) := by
  unfold to_rfc3339 yearStr
  rw [if_neg (by omega : ¬ dt.year < 0), if_neg (by omega : ¬ dt.year > 9999),
    if_neg (by omega : ¬ dt.offMinutes < 0)]

theorem chronoParse_pads (y mo dy h mi sec oh om : Nat)
    (hy : y ≤ 9999) (hmo1 : 1 ≤ mo) (hmo : mo ≤ 12)
    (hdy1 : 1 ≤ dy) (hdy : dy ≤ 31) (hh : h ≤ 23) (hmi : mi ≤ 59)
    (hs : sec ≤ 59) (hoh : oh ≤ 23) (hom : om ≤ 59) :
    chronoParseTimestamp (pad4 y ++ '-' :: pad2 mo ++ '-' :: pad2 dy ++
        'T' :: pad2 h ++ ':' :: pad2 mi ++ ':' :: pad2 sec ++
        '+' :: pad2 oh ++ ':' :: pad2 om) =
      some (daysFromCivil (y : Int) (mo : Int) (dy : Int) * 86400 +
        (h : Int) * 3600 + (mi : Int) * 60 + (sec : Int) -
        ((oh : Int) * 60 + (om : Int)) * 60) := by
  unfold chronoParseTimestamp
  rw [extractTime_pads y mo dy h mi sec oh om (by omega) (by omega) (by omega)
    (by omega) (by omega) (by omega) (by omega) (by omega)]
  show (if 1 ≤ mo ∧ mo ≤ 12 ∧ 1 ≤ dy ∧ dy ≤ 31 ∧ h ≤ 23 ∧ mi ≤ 59 ∧
      sec ≤ 59 ∧ oh ≤ 23 ∧ om ≤ 59 then
      some (daysFromCivil (y : Int) (mo : Int) (dy : Int) * 86400 +
        (h : Int) * 3600 + (mi : Int) * 60 + (sec : Int) -
        ((oh : Int) * 60 + (om : Int)) * 60)
    else none) = _
  rw [if_pos ⟨hmo1, hmo, hdy1, hdy, hh, hmi, hs, hoh, hom⟩]

theorem chronoParse_render (off t : Int) (hoff0 : 0 ≤ off) (hoff1 : off < 1440)
    (hy0 : 0 ≤ (localFromTimestamp off t).year)
    (hy1 : (localFromTimestamp off t).year ≤ 9999) :
    chronoParseTimestamp (to_rfc3339 (localFromTimestamp off t)) = some t := by
  have hrange := civilFromDays_range ((t + off * 60) / 86400)
  have hinv := daysFromCivil_civilFromDays ((t + off * 60) / 86400)
  have hy0' : 0 ≤ (civilFromDays ((t + off * 60) / 86400)).1 := hy0
  have hy1' : (civilFromDays ((t + off * 60) / 86400)).1 ≤ 9999 := hy1
  have hsecs0 : 0 ≤ (t + off * 60) % 86400 := Int.emod_nonneg _ (by norm_num)
  have hsecs1 : (t + off * 60) % 86400 < 86400 :=
    Int.emod_lt_of_pos _ (by norm_num)
  rw [to_rfc3339_pads (localFromTimestamp off t) hy0 hy1 hoff0]
  have efields :
      (localFromTimestamp off t).year.toNat =
        (civilFromDays ((t + off * 60) / 86400)).1.toNat ∧
      (localFromTimestamp off t).month.toNat =
        (civilFromDays ((t + off * 60) / 86400)).2.1.toNat ∧
      (localFromTimestamp off t).day.toNat =
        (civilFromDays ((t + off * 60) / 86400)).2.2.toNat ∧
      (localFromTimestamp off t).hour.toNat =
        (((t + off * 60) % 86400) / 3600).toNat ∧
      (localFromTimestamp off t).minute.toNat =
        ((((t + off * 60) % 86400) % 3600) / 60).toNat ∧
      (localFromTimestamp off t).second.toNat =
        (((t + off * 60) % 86400) % 60).toNat ∧
      (localFromTimestamp off t).offMinutes = off :=
    ⟨rfl, rfl, rfl, rfl, rfl, rfl, rfl⟩
  obtain ⟨e1, e2, e3, e4, e5, e6, e7⟩ := efields
  rw [e1, e2, e3, e4, e5, e6, e7]
  rw [chronoParse_pads _ _ _ _ _ _ _ _
    (by omega) (by omega) (by omega) (by omega) (by omega)
    (by omega) (by omega) (by omega) (by omega) (by omega)]
  congr 1
  rw [Int.toNat_of_nonneg hy0', Int.toNat_of_nonneg (by omega),
    Int.toNat_of_nonneg (by omega), hinv]
  omega

/-! ## Snapshot path regex lemmas -/

theorem isIdChar_of_alnum (c : Char) (h : isAlnumChar c = true) :
    isIdChar c = true := by
  unfold isIdChar
  rw [h]
  rfl

theorem idAccept_all (s : Str) (h : idAccept s = true) :
    s.all isIdChar = true := by
  match s, h with
  | c :: rest, h =>
    unfold idAccept at h
    simp only [Bool.and_eq_true] at h
    simp only [List.all_cons, Bool.and_eq_true]
    exact ⟨isIdChar_of_alnum c h.1.1, h.2⟩

theorem snapshotMatchAt_exact (ty id T : Str) (hty : ty ∈ backupTypes)
    (hid : idAccept id) (hT : (extractTime T).isSome) :
    snapshotMatchAt (ty ++ '/' :: (id ++ '/' :: T)) = some (ty, id, T) := by
  obtain ⟨htw, hdw⟩ :=
    takeWhile_append_stop isIdChar id '/' T (idAccept_all id hid) (by decide)
  unfold snapshotMatchAt
  rw [typeAlt_exact ty hty ('/' :: (id ++ '/' :: T))]
  simp only [hdw, htw, hid, hT, and_self, if_true]

theorem snapshotRegexFind_cons (c : Char) (rest : Str) :
    snapshotRegexFind (c :: rest) =
      match snapshotMatchAt (c :: rest) with
      | some r => some r
      | none => snapshotRegexFind rest := rfl

theorem snapshotRegexFind_exact (ty id T : Str) (hty : ty ∈ backupTypes)
    (hid : idAccept id) (hT : (extractTime T).isSome) :
    snapshotRegexFind (ty ++ '/' :: (id ++ '/' :: T)) = some (ty, id, T) := by
  have hm := snapshotMatchAt_exact ty id T hty hid hT
  simp only [backupTypes, List.mem_cons, List.not_mem_nil, or_false] at hty
  rcases hty with h | h | h <;> subst h
  · show snapshotRegexFind ('h' :: 'o' :: 's' :: 't' :: '/' :: (id ++ '/' :: T)) =
      some ("host".data, id, T)
    rw [snapshotRegexFind_cons]
    rw [show snapshotMatchAt ('h' :: 'o' :: 's' :: 't' :: '/' :: (id ++ '/' :: T)) =
      some ("host".data, id, T) from hm]
  · show snapshotRegexFind ('v' :: 'm' :: '/' :: (id ++ '/' :: T)) =
      some ("vm".data, id, T)
    rw [snapshotRegexFind_cons]
    rw [show snapshotMatchAt ('v' :: 'm' :: '/' :: (id ++ '/' :: T)) =
      some ("vm".data, id, T) from hm]
  · show snapshotRegexFind ('c' :: 't' :: '/' :: (id ++ '/' :: T)) =
      some ("ct".data, id, T)
    rw [snapshotRegexFind_cons]
    rw [show snapshotMatchAt ('c' :: 't' :: '/' :: (id ++ '/' :: T)) =
      some ("ct".data, id, T) from hm]

/-! ## Claim theorem for the snapshot path round trip -/

/-- C6 (amended): for every `BackupDir` built from a valid backup type, a
valid backup id and an integer timestamp, *provided the ambient local
timezone has a nonnegative UTC offset (less than 24h) and the local calendar
year of the timestamp lies in 0000..9999*, rendering the relative path
yields `<type>/<id>/<rfc3339>` and `BackupDir::parse` recovers the same group
and the same timestamp.  (For negative offsets `to_rfc3339` renders a `-`
zone which `BACKUP_TIME_RE` — `\+` only — rejects, see the counterexample;
years outside 0000..9999 render with more or fewer than four digits and are
likewise rejected.) -/
theorem C6_backup_dir_roundtrip (off t : Int) (ty id : Str)
    (hty : ty ∈ backupTypes) (hid : idAccept id)
    (hoff0 : 0 ≤ off) (hoff1 : off < 1440)
    (hy0 : 0 ≤ (localFromTimestamp off t).year)
    (hy1 : (localFromTimestamp off t).year ≤ 9999) :
    BackupDir.parse (BackupDir.relative_path off ⟨⟨ty, id⟩, t⟩) =
      .ok ⟨⟨ty, id⟩, t⟩ := by
  have hchrono := chronoParse_render off t hoff0 hoff1 hy0 hy1
  have hTsome : (extractTime (to_rfc3339 (localFromTimestamp off t))).isSome := by
    unfold chronoParseTimestamp at hchrono
    rcases he : extractTime (to_rfc3339 (localFromTimestamp off t)) with _ | v
    · rw [he] at hchrono; exact absurd hchrono (by simp)
    · simp
  show BackupDir.parse
      (ty ++ '/' :: (id ++ '/' :: to_rfc3339 (localFromTimestamp off t))) =
    .ok ⟨⟨ty, id⟩, t⟩
  unfold BackupDir.parse
  rw [snapshotRegexFind_exact ty id _ hty hid hTsome]
  simp only [hchrono]

/-- Witness for C6 at a concrete input: `host/ab` at timestamp 1578000123
with local offset +01:00 renders and parses back unchanged. -/
theorem C6_backup_dir_roundtrip_witness :
    BackupDir.parse (BackupDir.relative_path 60
        ⟨⟨"host".data, "ab".data⟩, 1578000123⟩) =
      .ok ⟨⟨"host".data, "ab".data⟩, 1578000123⟩ :=
  C6_backup_dir_roundtrip 60 1578000123 "host".data "ab".data
    (by decide) (by decide) (by decide) (by decide) (by decide) (by decide)

/-- C6 counterexample: in a local timezone with a negative UTC offset
(here −01:00) the rendered path `host/ab/1969-12-31T23:00:00-01:00` does not
match `BACKUP_TIME_RE` (which only admits a `+` zone), so `BackupDir::parse`
fails on the rendered path and the round trip of the claim does not hold. -/
theorem C6_backup_dir_roundtrip_counterexample :
    BackupDir.parse (BackupDir.relative_path (-60)
        ⟨⟨"host".data, "ab".data⟩, 0⟩) =
      .error "unable to parse backup snapshot path".data := by
  decide

/-- The decimal value of a digit list grows by one digit on the right. -/
theorem digitsVal_append (xs : Str) (c : Char) :
    digitsVal (xs ++ [c]) = 10 * digitsVal xs + digitVal c := by
  simp [digitsVal, List.foldl_append]

/-- Characters produced by `digitChar` on `0..9` are good digits. -/
theorem digitChar_good (d : Nat) (hd : d ≤ 9) :
    goodDigit (digitChar d) = true ∧ digitVal (digitChar d) = d := by
  interval_cases d <;> exact ⟨by decide, by decide⟩

/-- Unpack the conjunction inside `goodDigit`. -/
theorem goodDigit_facts (c : Char) (h : goodDigit c = true) :
    isDigitChar c = true ∧ isCtrlChar c = false ∧ isWsChar c = false ∧
      c ≠ '-' ∧ c ≠ '+' := by
  simp only [goodDigit, Bool.and_eq_true, Bool.not_eq_true',
    decide_eq_false_iff_not, decide_eq_true_eq] at h
  exact ⟨h.1.1.1.1, h.1.1.1.2, h.1.1.2, h.1.2, h.2⟩

/-- `natDigitsRec` produces good digits whose value is the input. -/
theorem natDigitsRec_spec (n : Nat) :
    (natDigitsRec n).all goodDigit = true ∧ digitsVal (natDigitsRec n) = n := by
  induction n using Nat.strong_induction_on with
  | _ n ih =>
    cases n with
    | zero => simp [natDigitsRec, digitsVal]
    | succ m =>
      have hlt : (m + 1) / 10 < m + 1 := Nat.div_lt_self (Nat.succ_pos m) (by omega)
      obtain ⟨ha, hv⟩ := ih ((m + 1) / 10) hlt
      have hd := digitChar_good ((m + 1) % 10) (by omega)
      rw [natDigitsRec]
      constructor
      · simp [List.all_append, ha, hd.1]
      · rw [digitsVal_append, hv, hd.2]; omega

/-- `natRender` is a nonempty good-digit string parsing back to its input. -/
theorem natRender_spec (n : Nat) :
    natRender n ≠ [] ∧ (natRender n).all goodDigit = true ∧
      parseNatAll (natRender n) = some n := by
  by_cases h : n = 0
  · subst h; exact ⟨by decide, by decide, by decide⟩
  · obtain ⟨ha, hv⟩ := natDigitsRec_spec n
    have hne : natDigitsRec n ≠ [] := by
      intro hn
      rw [hn] at hv
      simp [digitsVal] at hv
      exact h hv.symm
    have hall : (natDigitsRec n).all isDigitChar = true := by
      rw [List.all_eq_true] at ha ⊢
      intro c hc
      exact (goodDigit_facts c (ha c hc)).1
    rw [natRender, if_neg h]
    refine ⟨hne, ha, ?_⟩
    rw [parseNatAll, if_pos ⟨hne, hall⟩, hv]

/-- On a nonempty digit string, `parseI64` is plain digit parsing with the
positive range check. -/
theorem parseI64_digits (s : Str) (hne : s ≠ []) (hall : s.all goodDigit = true) :
    parseI64 s = (parseNatAll s).bind
      (fun n => if (n : Int) < 2 ^ 63 then some (n : Int) else none) := by
  cases s with
  | nil => exact absurd rfl hne
  | cons c r =>
    have hc := goodDigit_facts c (by
      rw [List.all_eq_true] at hall
      exact hall c (List.mem_cons_self c r))
    unfold parseI64
    split
    · rename_i rest heq
      rw [List.cons.injEq] at heq
      exact absurd heq.1 hc.2.2.2.1
    · rename_i rest heq
      rw [List.cons.injEq] at heq
      exact absurd heq.1 hc.2.2.2.2
    · rfl

/-- Every character of `intRender` is a digit or the leading minus sign:
none of them are control or whitespace characters. -/
theorem intRender_chars (n : Int) :
    ∀ c ∈ intRender n, isCtrlChar c = false ∧ isWsChar c = false := by
  intro c hc
  rw [intRender] at hc
  have hdig : ∀ m : Nat, c ∈ natRender m →
      isCtrlChar c = false ∧ isWsChar c = false := by
    intro m hm
    obtain ⟨-, ha, -⟩ := natRender_spec m
    rw [List.all_eq_true] at ha
    obtain ⟨-, h2, h3, -, -⟩ := goodDigit_facts c (ha c hm)
    exact ⟨h2, h3⟩
  by_cases hn : n < 0
  · rw [if_pos hn] at hc
    rcases List.mem_cons.mp hc with he | hm
    · subst he; exact ⟨by decide, by decide⟩
    · exact hdig n.natAbs hm
  · rw [if_neg hn] at hc
    exact hdig n.toNat hc

/-- A list whose members all fail `p` is unchanged by `dropWhile`. -/
theorem dropWhile_eq_self_of_none {p : Char → Bool} (s : Str)
    (h : ∀ c ∈ s, p c = false) : s.dropWhile p = s := by
  cases s with
  | nil => rfl
  | cons c r => simp [List.dropWhile_cons, h c (List.mem_cons_self c r)]

/-- A string with no whitespace at all is trim-invariant. -/
theorem trim_eq_self_of_all (s : Str) (h : ∀ c ∈ s, isWsChar c = false) :
    trim s = s := by
  unfold trim
  rw [dropWhile_eq_self_of_none s h,
    dropWhile_eq_self_of_none s.reverse (fun c hc => h c (List.mem_reverse.mp hc)),
    List.reverse_reverse]

/-- Trimming swallows a leading whitespace character. -/
theorem trim_cons_ws (c : Char) (s : Str) (hc : isWsChar c = true) :
    trim (c :: s) = trim s := by
  unfold trim
  rw [List.dropWhile_cons, if_pos hc]

/-- A string that trims to nothing is all whitespace. -/
theorem all_ws_of_trim_eq_nil (s : Str) (h : trim s = []) :
    ∀ c ∈ s, isWsChar c = true := by
  unfold trim at h
  rw [List.reverse_eq_nil_iff, List.dropWhile_eq_nil_iff] at h
  intro c hc
  rw [← List.takeWhile_append_dropWhile (p := isWsChar) (l := s)] at hc
  rcases List.mem_append.mp hc with hm | hm
  · exact List.mem_takeWhile_imp hm
  · exact h c (List.mem_reverse.mpr hm)

/-- A string containing a non-whitespace character does not trim to
nothing. -/
theorem trim_ne_nil_of_mem (s : Str) (c : Char) (hc : c ∈ s)
    (h : isWsChar c = false) : trim s ≠ [] := by
  intro he
  rw [all_ws_of_trim_eq_nil s he c hc] at h
  cases h

/-- `intRender` round-trips through `parseI64` on the `i64` range, and its
text passes the control-character check and is trim-invariant. -/
theorem intRender_spec (n : Int) (h1 : -(2 ^ 63) ≤ n) (h2 : n < 2 ^ 63) :
    parseI64 (intRender n) = some n ∧ (intRender n).any isCtrlChar = false ∧
      trim (intRender n) = intRender n ∧ '\n' ∉ intRender n := by
  have hchars := intRender_chars n
  refine ⟨?_, ?_, ?_, ?_⟩
  · by_cases hn : n < 0
    · rw [intRender, if_pos hn]
      obtain ⟨-, -, hp⟩ := natRender_spec n.natAbs
      show (parseNatAll (natRender n.natAbs)).bind _ = some n
      rw [hp, Option.some_bind]
      have hle : (n.natAbs : Int) ≤ 2 ^ 63 := by omega
      have hval : -(n.natAbs : Int) = n := by omega
      rw [if_pos hle, hval]
    · rw [intRender, if_neg hn]
      obtain ⟨hne, ha, hp⟩ := natRender_spec n.toNat
      rw [parseI64_digits (natRender n.toNat) hne ha, hp, Option.some_bind]
      have hval : (n.toNat : Int) = n := by omega
      rw [hval, if_pos h2]
  · rw [List.any_eq_false]
    intro c hc
    simp [(hchars c hc).1]
  · exact trim_eq_self_of_all _ (fun c hc => (hchars c hc).2)
  · intro hmem
    exact absurd (hchars '\n' hmem).1 (by decide)

/-- Looking up past an association list that misses the key. -/
theorem alookup_append_of_none {α β : Type} [DecidableEq α] (k : α)
    (a b : List (α × β)) (h : alookup k a = none) :
    alookup k (a ++ b) = alookup k b := by
  induction a with
  | nil => rfl
  | cons kv rest ih =>
    obtain ⟨k', v'⟩ := kv
    by_cases hk : k = k'
    · simp [alookup, hk] at h
    · rw [alookup, if_neg hk] at h
      rw [List.cons_append, alookup, if_neg hk]
      exact ih h

/-- A successful association lookup returns a member pair. -/
theorem alookup_eq_some_mem {α β : Type} [DecidableEq α] (k : α) (v : β)
    (l : List (α × β)) (h : alookup k l = some v) : (k, v) ∈ l := by
  induction l with
  | nil => cases h
  | cons kv rest ih =>
    obtain ⟨k', v'⟩ := kv
    by_cases hk : k = k'
    · subst hk
      rw [alookup, if_pos rfl] at h
      injection h with h
      subst h
      exact List.mem_cons_self _ _
    · rw [alookup, if_neg hk] at h
      exact List.mem_cons_of_mem _ (ih h)

/-- A member key makes the association lookup succeed. -/
theorem alookup_isSome_of_mem {α β : Type} [DecidableEq α] (k : α) (v : β)
    (l : List (α × β)) (h : (k, v) ∈ l) : (alookup k l).isSome = true := by
  induction l with
  | nil => cases h
  | cons kv rest ih =>
    obtain ⟨k', v'⟩ := kv
    by_cases hk : k = k'
    · simp [alookup, hk]
    · rw [alookup, if_neg hk]
      rcases List.mem_cons.mp h with he | hm
      · rw [Prod.mk.injEq] at he
        exact absurd he.1 hk
      · exact ih hm

/-- A verified object has every key registered with a conforming value
(`verify_json_object` walks the object in order). -/
theorem verify_ok_spec (obj : List (Str × CValue))
    (props : List (Str × Bool × PropSchema))
    (h : verify_json_object obj props = .ok ()) :
    ∀ k v, (k, v) ∈ obj →
      ∃ o ps, alookup k props = some (o, ps) ∧ conforms v ps = true := by
  induction obj with
  | nil =>
    intro k v hm
    cases hm
  | cons kv rest ih =>
    obtain ⟨k0, v0⟩ := kv
    intro k v hm
    rw [verify_json_object] at h
    cases hl : alookup k0 props with
    | none =>
      simp only [hl] at h
      exact Except.noConfusion h
    | some ops =>
      obtain ⟨o0, ps0⟩ := ops
      simp only [hl] at h
      by_cases hc : conforms v0 ps0 = true
      · rw [if_pos hc] at h
        rcases List.mem_cons.mp hm with he | hm'
        · rw [Prod.mk.injEq] at he
          obtain ⟨he1, he2⟩ := he
          subst he1
          subst he2
          exact ⟨o0, ps0, hl, hc⟩
        · exact ih h k v hm'
      · rw [if_neg hc] at h
        cases h

/-- `linesAux` never returns the empty list of lines. -/
theorem linesAux_ne_nil (s : Str) : linesAux s ≠ [] := by
  cases s with
  | nil => simp [linesAux]
  | cons c r =>
    rw [linesAux]
    by_cases h : c = '\n'
    · simp [h]
    · rw [if_neg h]
      cases linesAux r <;> simp

/-- Splitting at newlines peels off a newline-free first line. -/
theorem linesAux_append_line (u r : Str) (hu : '\n' ∉ u) :
    linesAux (u ++ '\n' :: r) = u :: linesAux r := by
  induction u with
  | nil => simp [linesAux]
  | cons c u' ih =>
    have hc : c ≠ '\n' := by
      intro h
      subst h
      exact hu (List.mem_cons_self _ _)
    have hu' : '\n' ∉ u' := fun h => hu (List.mem_cons_of_mem c h)
    rw [List.cons_append, linesAux, if_neg hc, ih hu']

/-- An ASCII-alphabetic character is not whitespace. -/
theorem alpha_not_ws (c : Char) (h : isAsciiAlpha c = true) :
    isWsChar c = false := by
  simp only [isAsciiAlpha, Bool.or_eq_true, Bool.and_eq_true,
    decide_eq_true_eq] at h
  simp only [isWsChar, Bool.or_eq_false_iff, Bool.and_eq_false_iff,
    decide_eq_false_iff_not]
  omega

/-- An ASCII-alphabetic character is not a colon. -/
theorem alpha_ne_colon (c : Char) (h : isAsciiAlpha c = true) : c ≠ ':' := by
  intro he
  subst he
  exact absurd h (by decide)

/-- An ASCII-alphabetic character is not a newline. -/
theorem alpha_ne_newline (c : Char) (h : isAsciiAlpha c = true) : c ≠ '\n' := by
  intro he
  subst he
  exact absurd h (by decide)

/-- A whitespace-free character list has no newline. -/
theorem newline_not_mem_of_no_ws (s : Str) (h : ∀ c ∈ s, isWsChar c = false) :
    '\n' ∉ s := by
  intro hm
  exact absurd (h '\n' hm) (by decide)

/-- A control-free character list has no newline. -/
theorem newline_not_mem_of_no_ctrl (s : Str) (h : s.any isCtrlChar = false) :
    '\n' ∉ s := by
  intro hm
  rw [List.any_eq_false] at h
  exact absurd (by decide : isCtrlChar '\n' = true) (by simpa using h '\n' hm)

/-- The default header parser recovers the type and id from a rendered
header line (an alphabetic type, then `: `, then a trim-invariant id). -/
theorem header_parse (ty sid : Str) (hne : ty ≠ [])
    (hal : ∀ c ∈ ty, isAsciiAlpha c = true) (hsid : trim sid = sid) :
    default_parse_section_header (ty ++ ':' :: ' ' :: sid) = some (ty, sid) := by
  obtain ⟨c0, ty', rfl⟩ : ∃ c0 ty', ty = c0 :: ty' := by
    cases ty with
    | nil => exact absurd rfl hne
    | cons a b => exact ⟨a, b, rfl⟩
  have hc0 : isAsciiAlpha c0 = true := hal c0 (List.mem_cons_self _ _)
  have hall : (c0 :: ty').all (fun ch => decide ¬(ch = ':')) = true := by
    rw [List.all_eq_true]
    intro c hc
    simp only [decide_eq_true_eq]
    exact alpha_ne_colon c (hal c hc)
  obtain ⟨htake, hdrop⟩ := takeWhile_append_stop (fun ch => decide ¬(ch = ':'))
    (c0 :: ty') ':' (' ' :: sid) hall (by decide)
  rw [List.cons_append] at htake hdrop
  rw [List.cons_append, default_parse_section_header, if_neg (by simp [hc0]),
    htake, hdrop]
  have htr : trim (c0 :: ty') = c0 :: ty' :=
    trim_eq_self_of_all _ (fun c hc => alpha_not_ws c (hal c hc))
  simp only [htr]
  rw [if_neg (by simp), trim_cons_ws ' ' sid (by decide), hsid]

/-- The default content parser recovers the key and the trimmed value text
from a rendered property line (tab, whitespace-free key, space, text). -/
theorem content_parse (k text : Str) (hk : k ≠ [])
    (hka : ∀ c ∈ k, isWsChar c = false) :
    default_parse_section_content ('\t' :: (k ++ ' ' :: text))
      = some (k, trim text) := by
  obtain ⟨c0, k', rfl⟩ : ∃ c0 k', k = c0 :: k' := by
    cases k with
    | nil => exact absurd rfl hk
    | cons a b => exact ⟨a, b, rfl⟩
  have hc0 : isWsChar c0 = false := hka c0 (List.mem_cons_self _ _)
  have hall : (c0 :: k').all (fun ch => decide ¬(isWsChar ch = true)) = true := by
    rw [List.all_eq_true]
    intro c hc
    simp [hka c hc]
  obtain ⟨htake, hdrop⟩ := takeWhile_append_stop
    (fun ch => decide ¬(isWsChar ch = true)) (c0 :: k') ' ' text hall (by decide)
  rw [List.cons_append] at htake hdrop
  have ht : List.dropWhile isWsChar ('\t' :: (c0 :: (k' ++ ' ' :: text)))
      = c0 :: (k' ++ ' ' :: text) := by
    rw [List.dropWhile_cons, if_pos (by decide), List.dropWhile_cons,
      if_neg (by simp [hc0])]
  rw [List.cons_append, default_parse_section_content,
    if_neg (by decide), ht]
  have htr : trim (c0 :: k') = c0 :: k' :=
    trim_eq_self_of_all _ (fun c hc => hka c hc)
  simp only [htake, hdrop, htr]
  rw [if_neg (by simp)]

/-- A non-null conforming value with the `valueOkB` side conditions renders
to a control-free, newline-free, trim-invariant text that parses back to the
same value under the same schema. -/
theorem value_text_ok (v : CValue) (ps : PropSchema) (hc : conforms v ps = true)
    (hv : v ≠ CValue.null) (hok : valueOkB v = true) :
    ∃ text, propText v = some text ∧ text.any isCtrlChar = false ∧
      '\n' ∉ text ∧ trim text = text ∧ parse_simple_value text ps = .ok v := by
  cases v with
  | null => exact absurd rfl hv
  | bool b =>
    cases ps with
    | boolean =>
      cases b
      · exact ⟨_, rfl, by decide, by decide, by decide, by decide⟩
      · exact ⟨_, rfl, by decide, by decide, by decide, by decide⟩
    | integer => simp [conforms] at hc
    | string => simp [conforms] at hc
  | str s =>
    cases ps with
    | string =>
      simp only [valueOkB, Bool.and_eq_true, decide_eq_true_eq,
        Bool.not_eq_true'] at hok
      exact ⟨s, rfl, hok.2, newline_not_mem_of_no_ctrl s hok.2, hok.1, rfl⟩
    | boolean => simp [conforms] at hc
    | integer => simp [conforms] at hc
  | int n =>
    cases ps with
    | integer =>
      simp only [valueOkB, Bool.and_eq_true, decide_eq_true_eq] at hok
      obtain ⟨hp, hctrl, htrim, hnl⟩ := intRender_spec n hok.1 hok.2
      refine ⟨intRender n, rfl, hctrl, hnl, htrim, ?_⟩
      simp only [parse_simple_value, hp]
    | boolean => simp [conforms] at hc
    | string => simp [conforms] at hc

/-- Unfold `renderProps` at a non-null head value. -/
theorem renderProps_cons_ne_null (sid k : Str) (v : CValue)
    (obj : List (Str × CValue)) (hv : v ≠ CValue.null) :
    renderProps sid ((k, v) :: obj) =
      match propText v with
      | none => .error "got unsupported type".data
      | some text =>
        if text.any isCtrlChar then
          .error "detected unexpected control character in value".data
        else
          (renderProps sid obj).map
            (fun tail => '\t' :: k ++ ' ' :: text ++ '\n' :: tail) := by
  cases v with
  | null => exact absurd rfl hv
  | bool b => rfl
  | str s => rfl
  | int n => rfl

/-- The heart of the section round trip: rendering a well-formed object
succeeds, its output splits into one line per non-null property, and the
parser state machine consumes those lines by appending exactly the non-null
properties to the object under construction. -/
theorem renderProps_roundtrip (self : SectionConfig) (plugin : SectionPlugin)
    (sid : Str) (obj : List (Str × CValue))
    (hkeys : ∀ k v, (k, v) ∈ obj → k ≠ [] ∧ (∀ c ∈ k, isWsChar c = false)
        ∧ valueOkB v = true)
    (hsch : ∀ k v, (k, v) ∈ obj → v ≠ CValue.null →
        ∃ o ps, alookup k plugin.properties = some (o, ps) ∧ conforms v ps = true)
    (hnd : (obj.map Prod.fst).Nodup) :
    ∃ body pl, renderProps sid obj = .ok body ∧
      (∀ s, linesAux (body ++ s) = pl ++ linesAux s) ∧
      (∀ accObj rest acc,
        (∀ k v, (k, v) ∈ obj → v ≠ CValue.null → alookup k accObj = none) →
        parseLines self (pl ++ rest) (.insideSection plugin sid accObj) acc
          = parseLines self rest
              (.insideSection plugin sid
                (accObj ++ obj.filter (fun kv => decide (kv.2 ≠ CValue.null))))
              acc) := by
  induction obj with
  | nil =>
    refine ⟨[], [], rfl, fun s => by simp, fun accObj rest acc hdisj => by simp⟩
  | cons kv obj' ih =>
    obtain ⟨k, v⟩ := kv
    obtain ⟨hk1, hk2, hk3⟩ := hkeys k v (List.mem_cons_self _ _)
    have hkeys' : ∀ k v, (k, v) ∈ obj' → k ≠ [] ∧
        (∀ c ∈ k, isWsChar c = false) ∧ valueOkB v = true :=
      fun k v h => hkeys k v (List.mem_cons_of_mem _ h)
    have hsch' : ∀ k v, (k, v) ∈ obj' → v ≠ CValue.null →
        ∃ o ps, alookup k plugin.properties = some (o, ps) ∧
          conforms v ps = true :=
      fun k v h hn => hsch k v (List.mem_cons_of_mem _ h) hn
    rw [List.map_cons] at hnd
    obtain ⟨hknotin, hnd'⟩ := List.nodup_cons.mp hnd
    obtain ⟨body', pl', hb', hl', hp'⟩ := ih hkeys' hsch' hnd'
    by_cases hnull : v = CValue.null
    · subst hnull
      refine ⟨body', pl', ?_, hl', ?_⟩
      · rw [renderProps]
        exact hb'
      · intro accObj rest acc hdisj
        rw [hp' accObj rest acc
          (fun k v h hn => hdisj k v (List.mem_cons_of_mem _ h) hn)]
        simp [List.filter_cons]
    · obtain ⟨o, ps, hlook, hconf⟩ := hsch k v (List.mem_cons_self _ _) hnull
      obtain ⟨text, hptext, hctrl, hnl, htrim, hparse⟩ :=
        value_text_ok v ps hconf hnull hk3
      have hrp : renderProps sid ((k, v) :: obj')
          = .ok ('\t' :: (k ++ ' ' :: text) ++ '\n' :: body') := by
        rw [renderProps_cons_ne_null sid k v obj' hnull]
        simp only [hptext]
        rw [if_neg (by simp [hctrl]), hb']
        rfl
      have hlnl : '\n' ∉ ('\t' :: (k ++ ' ' :: text)) := by
        intro hm
        rcases List.mem_cons.mp hm with h | hm2
        · exact absurd h (by decide)
        rcases List.mem_append.mp hm2 with h | hm3
        · exact newline_not_mem_of_no_ws k hk2 h
        rcases List.mem_cons.mp hm3 with h | hm4
        · exact absurd h (by decide)
        · exact hnl hm4
      refine ⟨'\t' :: (k ++ ' ' :: text) ++ '\n' :: body',
        ('\t' :: (k ++ ' ' :: text)) :: pl', hrp, ?_, ?_⟩
      · intro s
        have hassoc : ('\t' :: (k ++ ' ' :: text) ++ '\n' :: body') ++ s
            = ('\t' :: (k ++ ' ' :: text)) ++ '\n' :: (body' ++ s) := by
          simp
        rw [hassoc, linesAux_append_line _ _ hlnl, hl' s, List.cons_append]
      · intro accObj rest acc hdisj
        have htrimne : trim ('\t' :: (k ++ ' ' :: text)) ≠ [] := by
          obtain ⟨c0, k', rfl⟩ : ∃ c0 k', k = c0 :: k' := by
            cases k with
            | nil => exact absurd rfl hk1
            | cons a b => exact ⟨a, b, rfl⟩
          exact trim_ne_nil_of_mem _ c0
            (List.mem_cons_of_mem _
              (List.mem_append_left _ (List.mem_cons_self _ _)))
            (hk2 c0 (List.mem_cons_self _ _))
        have hdupe : (alookup k accObj).isNone = true := by
          rw [hdisj k v (List.mem_cons_self _ _) hnull]
          rfl
        have hdisj' : ∀ k' v', (k', v') ∈ obj' → v' ≠ CValue.null →
            alookup k' (accObj ++ [(k, v)]) = none := by
          intro k' v' hm hn
          have h1 := hdisj k' v' (List.mem_cons_of_mem _ hm) hn
          have hne : k' ≠ k := by
            intro he
            subst he
            have hmk : k' ∈ List.map Prod.fst obj' :=
              List.mem_map_of_mem Prod.fst hm
            exact hknotin hmk
          rw [alookup_append_of_none k' accObj _ h1, alookup, if_neg hne]
          rfl
        rw [List.cons_append, parseLines, if_neg htrimne]
        simp only [content_parse k text hk1 hk2, htrim, hlook, hparse]
        rw [if_pos hdupe]
        rw [hp' (accObj ++ [(k, v)]) rest acc hdisj']
        simp [List.filter_cons, hnull, List.append_assoc]

/-- One well-formed section renders to a nonempty blob whose lines the
parser consumes from `BeforeHeader`, ending inside the section with exactly
its non-null properties; the recovered type name and object match
`pSection` and the required-property check passes. -/
theorem writeSection_roundtrip (self : SectionConfig) (cfg : SectionConfigData)
    (sid : Str) (h : sectionOkB self cfg sid = true) :
    ∃ blob pl plugin,
      writeSection self cfg sid = .ok blob ∧ blob ≠ [] ∧
      (∀ s, linesAux (blob ++ s) = pl ++ linesAux s) ∧
      (∀ rest acc, parseLines self (pl ++ rest) .beforeHeader acc
        = parseLines self rest
            (.insideSection plugin sid (pSection cfg sid).2) acc) ∧
      plugin.type_name = (pSection cfg sid).1 ∧
      test_required_properties (pSection cfg sid).2 plugin.properties
        = .ok () := by
  unfold sectionOkB at h
  cases hsec : alookup sid cfg.sections with
  | none =>
    rw [hsec] at h
    exact Bool.noConfusion h
  | some tyobj =>
    obtain ⟨ty, obj⟩ := tyobj
    simp only [hsec] at h
    cases hplug : alookup ty self.plugins with
    | none =>
      rw [hplug] at h
      exact Bool.noConfusion h
    | some plugin =>
      simp only [hplug, Bool.and_eq_true] at h
      obtain ⟨⟨⟨⟨⟨⟨⟨⟨h1, h2⟩, h3⟩, h4⟩, h5⟩, h6⟩, h7⟩, h8⟩, h9⟩ := h
      have htyname : plugin.type_name = ty := of_decide_eq_true h1
      have htrimsid : trim sid = sid := of_decide_eq_true h2
      have hctrl : sid.any isCtrlChar = false := by
        rw [Bool.not_eq_true'] at h3
        exact h3
      have htyne : ty ≠ [] := by
        rw [Bool.not_eq_true'] at h4
        intro he
        rw [he] at h4
        exact Bool.noConfusion h4
      have htyal : ∀ c ∈ ty, isAsciiAlpha c = true := by
        rw [List.all_eq_true] at h5
        exact h5
      have hkeys : ∀ k v, (k, v) ∈ obj → k ≠ [] ∧
          (∀ c ∈ k, isWsChar c = false) ∧ valueOkB v = true := by
        intro k v hm
        rw [List.all_eq_true] at h6
        have hp := h6 (k, v) hm
        simp only [Bool.and_eq_true, Bool.not_eq_true', List.all_eq_true] at hp
        obtain ⟨⟨hpa, hpb⟩, hpc⟩ := hp
        refine ⟨?_, hpb, hpc⟩
        intro he
        rw [he] at hpa
        exact Bool.noConfusion hpa
      have hnd : (obj.map Prod.fst).Nodup := of_decide_eq_true h7
      have hverify : verify_json_object obj plugin.properties = .ok () :=
        of_decide_eq_true h8
      have hreq : test_required_properties
          (obj.filter (fun kv => decide (kv.2 ≠ CValue.null)))
          plugin.properties = .ok () := of_decide_eq_true h9
      have hsch : ∀ k v, (k, v) ∈ obj → v ≠ CValue.null →
          ∃ o ps, alookup k plugin.properties = some (o, ps) ∧
            conforms v ps = true :=
        fun k v hm _ => verify_ok_spec obj plugin.properties hverify k v hm
      obtain ⟨body, pl', hb, hl, hpp⟩ :=
        renderProps_roundtrip self plugin sid obj hkeys hsch hnd
      have hpsec : pSection cfg sid
          = (ty, obj.filter (fun kv => decide (kv.2 ≠ CValue.null))) := by
        rw [pSection, hsec]
      have hws : writeSection self cfg sid
          = .ok (((ty ++ ':' :: ' ' :: sid) ++ ['\n']) ++ body) := by
        unfold writeSection
        simp only [hsec, hplug]
        rw [if_neg (by simp [hctrl])]
        simp only [hverify, hb]
        rfl
      have hhnl : '\n' ∉ (ty ++ ':' :: ' ' :: sid) := by
        intro hm
        rcases List.mem_append.mp hm with hmt | hmr
        · exact absurd (htyal '\n' hmt) (by decide)
        rcases List.mem_cons.mp hmr with he | hmr2
        · exact absurd he (by decide)
        rcases List.mem_cons.mp hmr2 with he | hmr3
        · exact absurd he (by decide)
        · exact newline_not_mem_of_no_ctrl sid hctrl hmr3
      have hhdr_ne : trim (ty ++ ':' :: ' ' :: sid) ≠ [] := by
        obtain ⟨c0, ty', rfl⟩ : ∃ c0 ty', ty = c0 :: ty' := by
          cases ty with
          | nil => exact absurd rfl htyne
          | cons a b => exact ⟨a, b, rfl⟩
        exact trim_ne_nil_of_mem _ c0
          (List.mem_append_left _ (List.mem_cons_self _ _))
          (alpha_not_ws c0 (htyal c0 (List.mem_cons_self _ _)))
      refine ⟨((ty ++ ':' :: ' ' :: sid) ++ ['\n']) ++ body,
        (ty ++ ':' :: ' ' :: sid) :: pl', plugin, hws, by simp, ?_, ?_, ?_, ?_⟩
      · intro s
        have hassoc : (((ty ++ ':' :: ' ' :: sid) ++ ['\n']) ++ body) ++ s
            = (ty ++ ':' :: ' ' :: sid) ++ ('\n' :: (body ++ s)) := by
          simp
        rw [hassoc, linesAux_append_line _ _ hhnl, hl s, List.cons_append]
      · intro rest acc
        rw [List.cons_append, parseLines, if_neg hhdr_ne]
        simp only [header_parse ty sid htyne htyal htrimsid, hplug]
        rw [hpp [] rest acc (fun k v hm hn => rfl)]
        rw [hpsec]
        simp
      · rw [hpsec]
        exact htyname
      · rw [hpsec]
        exact hreq

/-- The empty line trims to nothing. -/
theorem trim_nil : trim ([] : Str) = [] := rfl

/-- A trailing blank line does not change the parser's result: in
`BeforeHeader` it is skipped, inside a section it finishes the section
exactly as the end of input does. -/
theorem parseLines_append_blank (self : SectionConfig) (L : List Str)
    (st : ParseState) (acc : SectionConfigData) :
    parseLines self (L ++ [[]]) st acc = parseLines self L st acc := by
  induction L generalizing st acc with
  | nil =>
    cases st with
    | beforeHeader =>
      simp only [List.nil_append, parseLines, trim_nil, if_true]
    | insideSection plugin sid obj =>
      simp only [List.nil_append, parseLines, trim_nil, if_true]
      cases ht : test_required_properties obj plugin.properties with
      | error e =>
        simp only [ht]
        rfl
      | ok u =>
        cases u
        simp only [ht, parseLines]
        rfl
  | cons l L' ih =>
    cases st with
    | beforeHeader =>
      rw [List.cons_append, parseLines, parseLines]
      by_cases hb : trim l = []
      · rw [if_pos hb, if_pos hb]
        exact ih _ _
      · rw [if_neg hb, if_neg hb]
        cases hh : default_parse_section_header l with
        | none => simp only [hh]
        | some p =>
          obtain ⟨sty, sid2⟩ := p
          simp only [hh]
          cases hp : alookup sty self.plugins with
          | none => simp only [hp]
          | some plugin =>
            simp only [hp]
            exact ih _ _
    | insideSection plugin sid obj =>
      rw [List.cons_append, parseLines, parseLines]
      by_cases hb : trim l = []
      · rw [if_pos hb, if_pos hb]
        cases ht : test_required_properties obj plugin.properties with
        | error e => simp only [ht]
        | ok u =>
          cases u
          simp only [ht]
          exact ih _ _
      · rw [if_neg hb, if_neg hb]
        cases hc : default_parse_section_content l with
        | none => simp only [hc]
        | some p =>
          obtain ⟨key, value⟩ := p
          simp only [hc]
          cases hk : alookup key plugin.properties with
          | none => simp only [hk]
          | some ops =>
            obtain ⟨o, ps⟩ := ops
            simp only [hk]
            cases hv : parse_simple_value value ps with
            | error e => simp only [hv]
            | ok v2 =>
              simp only [hv]
              by_cases hd : (alookup key obj).isNone = true
              · rw [if_pos hd, if_pos hd]
                exact ih _ _
              · rw [if_neg hd, if_neg hd]

/-- Writing a nonempty id list yields a nonempty raw string ending in a
newline whose full line split the parser turns into exactly the recorded
sections, in order. -/
theorem writeList_roundtrip (self : SectionConfig) (cfg : SectionConfigData) :
    ∀ ids, ids ≠ [] → (∀ sid ∈ ids, sectionOkB self cfg sid = true) →
    ∃ raw L, writeList self cfg ids = .ok raw ∧ raw ≠ [] ∧
      linesAux raw = L ++ [[]] ∧
      ∀ acc, parseLines self (linesAux raw) .beforeHeader acc
        = .ok (recordAll cfg acc ids) := by
  intro ids
  induction ids with
  | nil =>
    intro hne _
    exact absurd rfl hne
  | cons sid rest ih =>
    intro _ hall
    obtain ⟨blob, pl, plugin, hws, hbne, hlines, hparse, htyname, hreq⟩ :=
      writeSection_roundtrip self cfg sid (hall sid (List.mem_cons_self _ _))
    cases rest with
    | nil =>
      refine ⟨blob, pl, ?_, hbne, ?_, ?_⟩
      · rw [writeList]
        exact hws
      · have h1 := hlines []
        rw [List.append_nil] at h1
        exact h1
      · intro acc
        have h1 := hlines []
        rw [List.append_nil] at h1
        rw [h1, hparse (linesAux []) acc]
        show parseLines self [[]] _ acc = _
        rw [parseLines, if_pos trim_nil]
        simp only [hreq]
        rw [parseLines, htyname]
        rfl
    | cons sid2 rest2 =>
      have hall' : ∀ s ∈ sid2 :: rest2, sectionOkB self cfg s = true :=
        fun s hs => hall s (List.mem_cons_of_mem _ hs)
      obtain ⟨raw', L', hw', hraw'ne, hlines', hparse'⟩ :=
        ih (List.cons_ne_nil sid2 rest2) hall'
      have hnl : linesAux ('\n' :: raw') = [] :: linesAux raw' := by
        rw [linesAux, if_pos rfl]
      refine ⟨blob ++ '\n' :: raw', pl ++ [] :: L', ?_, by simp, ?_, ?_⟩
      · rw [writeList]
        simp only [hws, hw']
        exact fun hh => List.noConfusion hh
      · rw [hlines ('\n' :: raw'), hnl, hlines']
        simp
      · intro acc
        rw [hlines ('\n' :: raw'), hparse (linesAux ('\n' :: raw')) acc, hnl]
        rw [parseLines, if_pos trim_nil]
        simp only [hreq]
        rw [htyname]
        rw [hparse'
          (recordSection acc sid (pSection cfg sid).1 (pSection cfg sid).2)]
        rfl

/-- Looking a section id up after recording all listed sections. -/
theorem recordAll_lookup (cfg : SectionConfigData) (ids : List Str) :
    ∀ (acc : SectionConfigData) (q : Str),
    alookup q (recordAll cfg acc ids).sections
      = if q ∈ ids then some (pSection cfg q) else alookup q acc.sections := by
  induction ids with
  | nil =>
    intro acc q
    simp [recordAll]
  | cons sid rest ih =>
    intro acc q
    show alookup q (recordAll cfg
      (recordSection acc sid (pSection cfg sid).1 (pSection cfg sid).2)
      rest).sections = _
    rw [ih]
    by_cases hq : q ∈ rest
    · rw [if_pos hq, if_pos (List.mem_cons_of_mem _ hq)]
    · rw [if_neg hq]
      by_cases he : q = sid
      · subst he
        rw [if_pos (List.mem_cons_self _ _)]
        show alookup q (ainsert q _ acc.sections) = _
        rw [alookup_ainsert_self]
      · rw [if_neg (by simp [he, hq])]
        show alookup q (ainsert sid _ acc.sections) = alookup q acc.sections
        exact alookup_ainsert_ne sid q _ _ he

/-- The ids `write` iterates over are exactly the live section keys. -/
theorem mem_writeIds_iff (cfg : SectionConfigData) (q : Str) :
    q ∈ writeIds cfg ↔ (alookup q cfg.sections).isSome = true := by
  unfold writeIds
  constructor
  · intro hm
    rcases List.mem_append.mp hm with h1 | h2
    · exact (List.mem_filter.mp h1).2
    · have hmf := (List.mem_filter.mp h2).1
      obtain ⟨a, ha, hfa⟩ := List.mem_map.mp hmf
      obtain ⟨k, v⟩ := a
      subst hfa
      exact alookup_isSome_of_mem k v _ ha
  · intro hs
    by_cases h1 : q ∈ cfg.order.filter
        (fun sid => (alookup sid cfg.sections).isSome)
    · exact List.mem_append_left _ h1
    · refine List.mem_append_right _ ?_
      rw [List.mem_filter]
      obtain ⟨v, hv⟩ := Option.isSome_iff_exists.mp hs
      refine ⟨List.mem_map.mpr ⟨(q, v), alookup_eq_some_mem q v _ hv, rfl⟩, ?_⟩
      simp only [decide_eq_true_eq]
      intro hc
      exact h1 (by simpa [List.contains, List.elem_iff] using hc)

/-- C9 (corrected): for every `SectionConfig` and `SectionConfigData` whose
written sections all satisfy `sectionOkB` — each section id is live,
trim-invariant and control-free, its type name is a nonempty alphabetic word
whose plugin is registered under itself, its property keys are nonempty,
whitespace-free and unique, its values verify against the schema and are
trim-invariant control-free strings, booleans, or `i64`-range integers, and
the required properties are present with non-null values — `write` succeeds
and `parse` of its output succeeds and returns a section map that agrees
with the original on every id, with the null-valued properties dropped.
The trim-invariance conditions are necessary additions to the claim: the
parser trims every value, so values with leading or trailing whitespace do
not survive the round trip (see the counterexample). -/
theorem C9_section_config_roundtrip (self : SectionConfig)
    (cfg : SectionConfigData)
    (h : ∀ sid ∈ writeIds cfg, sectionOkB self cfg sid = true) :
    ∃ raw cfg', SectionConfig.write self cfg = .ok raw ∧
      SectionConfig.parse self raw = .ok cfg' ∧
      ∀ q, alookup q cfg'.sections
        = (alookup q cfg.sections).map
            (fun tc => (tc.1,
              tc.2.filter (fun kv => decide (kv.2 ≠ CValue.null)))) := by
  by_cases hW : writeIds cfg = []
  · refine ⟨[], ⟨[], []⟩, ?_, rfl, ?_⟩
    · rw [SectionConfig.write, hW]
      rfl
    · intro q
      cases hl : alookup q cfg.sections with
      | none => simp [alookup]
      | some tc =>
        have hq : q ∈ writeIds cfg := (mem_writeIds_iff cfg q).mpr (by rw [hl]; rfl)
        rw [hW] at hq
        exact absurd hq (List.not_mem_nil q)
  · obtain ⟨raw, L, hw, hrawne, hlin, hpar⟩ :=
      writeList_roundtrip self cfg (writeIds cfg) hW h
    refine ⟨raw, recordAll cfg ⟨[], []⟩ (writeIds cfg), ?_, ?_, ?_⟩
    · rw [SectionConfig.write]
      exact hw
    · have hrl : rustLines raw = L := by
        cases raw with
        | nil => exact absurd rfl hrawne
        | cons c r =>
          rw [rustLines]
          · simp only [hlin]
            rw [List.getLast?_concat, if_pos rfl, List.dropLast_concat]
          · exact fun hh => List.noConfusion hh
      rw [SectionConfig.parse, hrl,
        ← parseLines_append_blank self L ParseState.beforeHeader ⟨[], []⟩,
        ← hlin]
      exact hpar ⟨[], []⟩
    · intro q
      rw [recordAll_lookup cfg (writeIds cfg) ⟨[], []⟩ q]
      by_cases hq : q ∈ writeIds cfg
      · rw [if_pos hq]
        obtain ⟨tc, htc⟩ :=
          Option.isSome_iff_exists.mp ((mem_writeIds_iff cfg q).mp hq)
        obtain ⟨ty, obj⟩ := tc
        simp only [pSection, htc]
        rfl
      · rw [if_neg hq]
        cases hl : alookup q cfg.sections with
        | none => rfl
        | some tc =>
          exact absurd ((mem_writeIds_iff cfg q).mpr (by rw [hl]; rfl)) hq

/-- Witness: a one-section configuration (string property `k` of section
`s` of type `p` with value `x`) satisfies the hypotheses of
`C9_section_config_roundtrip`. -/
theorem C9_section_config_roundtrip_witness :
    (∀ sid ∈ writeIds
        (⟨[(['s'], (['p'], [(['k'], CValue.str ['x'])]))], []⟩ :
          SectionConfigData),
      sectionOkB ⟨[(['p'], ⟨['p'], [(['k'], true, PropSchema.string)]⟩)]⟩
        ⟨[(['s'], (['p'], [(['k'], CValue.str ['x'])]))], []⟩ sid = true) ∧
    (∃ raw cfg',
      SectionConfig.write
          ⟨[(['p'], ⟨['p'], [(['k'], true, PropSchema.string)]⟩)]⟩
          ⟨[(['s'], (['p'], [(['k'], CValue.str ['x'])]))], []⟩ = .ok raw ∧
      SectionConfig.parse
          ⟨[(['p'], ⟨['p'], [(['k'], true, PropSchema.string)]⟩)]⟩ raw
        = .ok cfg' ∧
      ∀ q, alookup q cfg'.sections
        = (alookup q
            (⟨[(['s'], (['p'], [(['k'], CValue.str ['x'])]))], []⟩ :
              SectionConfigData).sections).map
            (fun tc => (tc.1,
              tc.2.filter (fun kv => decide (kv.2 ≠ CValue.null))))) :=
  ⟨by decide, C9_section_config_roundtrip _ _ (by decide)⟩

/-- C9 counterexample to the original claim: the string value `" x"` has no
control characters and verifies against its string schema, `write` accepts
it and emits `p: s\n\tk  x\n`, but `parse` trims the value text and returns
`"x"`, so the parsed section map differs from the original one. -/
theorem C9_section_config_roundtrip_counterexample :
    SectionConfig.write ⟨[(['p'], ⟨['p'], [(['k'], true, PropSchema.string)]⟩)]⟩
        ⟨[(['s'], (['p'], [(['k'], CValue.str [' ', 'x'])]))], []⟩
      = .ok "p: s\n\tk  x\n".data
    ∧ SectionConfig.parse
        ⟨[(['p'], ⟨['p'], [(['k'], true, PropSchema.string)]⟩)]⟩
        "p: s\n\tk  x\n".data
      = .ok ⟨[(['s'], (['p'], [(['k'], CValue.str ['x'])]))], [['s']]⟩
    ∧ CValue.str ['x'] ≠ CValue.str [' ', 'x'] :=
  ⟨by decide, by decide, by decide⟩

end PBS
